import Mathlib

/-!
# canplayer: pacing engine, routing table, dispatcher and log reader

A shallow embedding of `src/canplayer.c`.

Modelling conventions.
* A `long` / `time_t` value is an integer (`Int`) in `LONG_MIN .. LONG_MAX`
  (64 bits); every arithmetic operation on `long` goes through `wrap_long`,
  the two's complement result the compiled code computes (signed overflow
  is undefined behaviour in C).  `unsigned long` option values (`gap`,
  `skipgap`) are natural numbers; interface indices (`int`) are integers.
* A C string (a NUL-terminated `char` array) is the Lean string of the
  characters before the terminator; `strlen` is `String.length` and the test
  `s[0] == 0` is `s = ""`.  The log file is a text stream (no NUL characters).
* The static array `asgn[CHANNELS]` is a list of assignments; `asgn_init` is
  the zero-initialised array and reads go through `entry`, which yields the
  zero entry outside the list.
* Library and kernel services are parameters: `ifindex` stands for
  `ioctl(SIOCGIFINDEX)`, and `Env` collects `parse_canframe` and `sendto`.
  A `LogEvent` holds the four fields `sscanf` scanned; where a line is
  scanned (`event_step`) `sscanf` is a parameter too.
* `main` is embedded block by block: the pacing blocks (`pace_first`,
  `pace_next`, `replay`), the routing and dispatch part of the loop body
  (`route`, `dispatch`, `handle_event`) and the read loops (`read_loop`);
  `event_step` puts them together for one event.
-/

set_option maxRecDepth 8192

namespace Canplayer

/-! ## Pacer (`ts_add`, `ts_subtract`, the two pacing blocks of `main`) -/

/-- The largest value of a C `long` (64 bits). -/
def LONG_MAX : Int := 9223372036854775807

/-- The smallest value of a C `long` (64 bits). -/
def LONG_MIN : Int := -9223372036854775808

/-- A value a C `long` can hold. -/
def in_long (x : Int) : Prop := LONG_MIN ≤ x ∧ x ≤ LONG_MAX

/-- The `long` that holds the result of an arithmetic operation whose mathematical value
is `x`: the value modulo `2^64` in two's complement, as the compiled code computes it. -/
def wrap_long (x : Int) : Int :=
  (x + 9223372036854775808) % 18446744073709551616 - 9223372036854775808

/-- The library function `labs` on a `long`. -/
def labs (x : Int) : Int := wrap_long (if x < 0 then -x else x)

/-- The C `struct timespec`. -/
structure timespec where
  tv_sec : Int
  tv_nsec : Int
deriving DecidableEq, Repr

/-- The function `ts_add` (lines 108-115): a single carry out of the nanoseconds. -/
def ts_add (ts1 ts2 : timespec) : timespec :=
  let sec := wrap_long (ts1.tv_sec + ts2.tv_sec)
  let nsec := wrap_long (ts1.tv_nsec + ts2.tv_nsec)
  if nsec ≥ 1000000000 then ⟨wrap_long (sec + 1), wrap_long (nsec - 1000000000)⟩
  else ⟨sec, nsec⟩

/-- The function `ts_subtract` (lines 117-133): `ts1 - ts2`, clipped to zero when
`ts1` is not later than `ts2`. -/
def ts_subtract (ts1 ts2 : timespec) : timespec :=
  if ts1.tv_sec < ts2.tv_sec ∨ (ts1.tv_sec = ts2.tv_sec ∧ ts1.tv_nsec ≤ ts2.tv_nsec) then
    ⟨0, 0⟩
  else if ts1.tv_nsec < ts2.tv_nsec then
    ⟨wrap_long (wrap_long (ts1.tv_sec - ts2.tv_sec) - 1),
      wrap_long (wrap_long (ts1.tv_nsec + 1000000000) - ts2.tv_nsec)⟩
  else
    ⟨wrap_long (ts1.tv_sec - ts2.tv_sec), wrap_long (ts1.tv_nsec - ts2.tv_nsec)⟩

/-- The four fields `sscanf(buf, "(%ld.%ld) %s %s", ...)` extracts from an event line:
whole seconds, the digits after the dot (microseconds in a well-formed log), the
interface name and the frame text.  The two numbers are `long` values. -/
structure LogEvent where
  sec : Int
  usec : Int
  device : String
  ascframe : String
deriving DecidableEq, Repr

/-- The options of `main` the pacer reads: `use_timestamps` (cleared by `-t`),
`skipgap` (`-s`, 0 when not given) and `gap` (`-g`, milliseconds); the two numbers are
`unsigned long` values. -/
structure Config where
  use_timestamps : Bool
  skipgap : Nat
  gap : Nat
deriving DecidableEq, Repr

/-- Lines 303-304: the fixed gap as a timespec. -/
def sleep_ts (cfg : Config) : timespec :=
  ⟨(cfg.gap / 1000 : Nat), ((cfg.gap % 1000) * 1000000 : Nat)⟩

/-- The pacer variables of `main` that live across events and passes. -/
structure Pacer where
  target_ts : timespec
  last_log_ts : timespec
  diff_ts : timespec
deriving DecidableEq, Repr

/-- Lines 357-363: `last_log_ts` gets the special value, `target_ts` the clock reading
`T0`; `diff_ts` is a zero-initialised static. -/
def pacer_init (T0 : timespec) : Pacer :=
  { target_ts := T0, last_log_ts := ⟨-1, -1⟩, diff_ts := ⟨0, 0⟩ }

/-- The test `skipgap && labs(last_log_ts.tv_sec - log_ts.tv_sec) > skipgap` (lines 398
and 491): the `long` result of `labs` is converted to `unsigned long` for the
comparison. -/
def gap_exceeded (cfg : Config) (last_sec log_sec : Int) : Prop :=
  cfg.skipgap ≠ 0 ∧
    labs (wrap_long (last_sec - log_sec)) % 18446744073709551616 > (cfg.skipgap : Int)

instance (cfg : Config) (a b : Int) : Decidable (gap_exceeded cfg a b) := by
  unfold gap_exceeded; infer_instance

/-- Lines 391-409: pacing of the first event of a pass.  The scanned fraction is
multiplied by 1000 (line 391) before it is used. -/
def pace_first (cfg : Config) (st : Pacer) (ev : LogEvent) : Pacer :=
  let log_ts : timespec := ⟨ev.sec, wrap_long (ev.usec * 1000)⟩
  if cfg.use_timestamps then
    let diff_ts :=
      if (st.last_log_ts.tv_sec = -1 ∧ st.last_log_ts.tv_nsec = -1) ∨
          st.last_log_ts.tv_sec > log_ts.tv_sec ∨
          gap_exceeded cfg st.last_log_ts.tv_sec log_ts.tv_sec then
        ⟨0, 0⟩
      else ts_subtract log_ts st.last_log_ts
    { target_ts := ts_add st.target_ts diff_ts, last_log_ts := log_ts, diff_ts := diff_ts }
  else
    { st with target_ts := ts_add st.target_ts (sleep_ts cfg) }

/-- Lines 481-502: pacing of every later event of a pass.  Here the scanned fraction
goes into `log_ts.tv_nsec` as it is: the source has no multiplication on this path. -/
def pace_next (cfg : Config) (st : Pacer) (ev : LogEvent) : Pacer :=
  let log_ts : timespec := ⟨ev.sec, ev.usec⟩
  if cfg.use_timestamps then
    let diff_ts :=
      if st.last_log_ts.tv_sec > log_ts.tv_sec ∨
          gap_exceeded cfg st.last_log_ts.tv_sec log_ts.tv_sec then
        ⟨0, 0⟩
      else ts_subtract log_ts st.last_log_ts
    { target_ts := ts_add st.target_ts diff_ts, last_log_ts := log_ts, diff_ts := diff_ts }
  else
    { st with target_ts := ts_add st.target_ts (sleep_ts cfg) }

/-- One release: the event, whether it was the first of its pass, and the pacer
variables at the moment `clock_nanosleep` is called for it (`st.target_ts` is the
release target, `st.diff_ts` the release delta). -/
structure Release where
  first : Bool
  ev : LogEvent
  st : Pacer
deriving DecidableEq, Repr

/-- The inner `while (!eof)` loop seen from the pacer: the events after the first. -/
def play_rest (cfg : Config) : Pacer → List LogEvent → List Release
  | _, [] => []
  | st, e :: es => ⟨false, e, pace_next cfg st e⟩ :: play_rest cfg (pace_next cfg st e) es

/-- One pass over the log (one iteration of the outer loop), seen from the pacer. -/
def play_pass (cfg : Config) (st : Pacer) : List LogEvent → List Release
  | [] => []
  | e :: es => ⟨true, e, pace_first cfg st e⟩ :: play_rest cfg (pace_first cfg st e) es

/-- The pacer variables at the end of a pass (when `fgets` reports the end of the file). -/
def end_of_pass (cfg : Config) (st : Pacer) : List LogEvent → Pacer
  | [] => st
  | e :: es => es.foldl (pace_next cfg) (pace_first cfg st e)

/-- The outer loop `while (infinite_loops || loops--)` for a finite pass count: the
file is rewound and played again, the pacer variables carry over; an empty log
leaves through `goto out`. -/
def replay (cfg : Config) (st : Pacer) (events : List LogEvent) : Nat → List Release
  | 0 => []
  | loops + 1 =>
    match events with
    | [] => []
    | e :: es =>
      play_pass cfg st (e :: es) ++ replay cfg (end_of_pass cfg st (e :: es)) (e :: es) loops

/-- A timespec with its nanoseconds in `0 .. 10^9 - 1`. -/
def normalized (t : timespec) : Prop := 0 ≤ t.tv_nsec ∧ t.tv_nsec < 1000000000

/-- Order of timespecs: seconds first, then nanoseconds. -/
def ts_le (a b : timespec) : Prop :=
  a.tv_sec < b.tv_sec ∨ (a.tv_sec = b.tv_sec ∧ a.tv_nsec ≤ b.tv_nsec)

/-- An event whose sub-second field is in `0 .. 999999`. -/
def well_formed (e : LogEvent) : Prop := 0 ≤ e.usec ∧ e.usec ≤ 999999

instance (x : Int) : Decidable (in_long x) := by unfold in_long; infer_instance

instance (t : timespec) : Decidable (normalized t) := by unfold normalized; infer_instance

instance (a b : timespec) : Decidable (ts_le a b) := by unfold ts_le; infer_instance

instance (e : LogEvent) : Decidable (well_formed e) := by unfold well_formed; infer_instance

/-- The timestamp an event line states, `seconds.microseconds`, as a timespec
(microseconds converted to nanoseconds). -/
def logged_ts (e : LogEvent) : timespec := ⟨e.sec, e.usec * 1000⟩

/-- The two-line log of the example scenarios: `(10.000000) vcan0 123#1122` and
`(10.500000) vcan0 321#33`. -/
def example_log : List LogEvent :=
  [⟨10, 0, "vcan0", "123#1122"⟩, ⟨10, 500000, "vcan0", "321#33"⟩]

/-- A log with non-decreasing timestamps: `(10.000600) vcan0 123#1122` and
`(10.500000) vcan0 321#33`. -/
def boundary_log : List LogEvent :=
  [⟨10, 600, "vcan0", "123#1122"⟩, ⟨10, 500000, "vcan0", "321#33"⟩]

/-- The invariant of the pacer variables while no seconds sum can overflow: the target is
normalized, its seconds are non-negative and leave room for `R` more seconds below
`LONG_MAX`, and the last logged timestamp is the special value or that of an event with
seconds in `0 .. B`. -/
def PacerInv (B R : Nat) (st : Pacer) : Prop :=
  normalized st.target_ts ∧ 0 ≤ st.target_ts.tv_sec ∧
  st.target_ts.tv_sec + (R : Int) ≤ LONG_MAX ∧
  -1 ≤ st.last_log_ts.tv_sec ∧ st.last_log_ts.tv_sec ≤ (B : Int) ∧
  -1 ≤ st.last_log_ts.tv_nsec ∧ st.last_log_ts.tv_nsec ≤ 999999000

/-- The release delta of `r` is zero and, when the target `target` before it is
normalized, its target is `target`. -/
def zero_delta (target : timespec) (r : Release) : Prop :=
  r.st.diff_ts = ⟨0, 0⟩ ∧ (normalized target → r.st.target_ts = target)

/-- The whole seconds of `cur` are less than those of `prev`, or a gap-skip threshold
is configured, the difference of the whole seconds fits a `long`, and its absolute value
is more than the threshold. -/
def jump_or_gap (skipgap : Nat) (prev cur : LogEvent) : Prop :=
  cur.sec < prev.sec ∨
    (1 ≤ skipgap ∧ in_long (prev.sec - cur.sec) ∧ (prev.sec - cur.sec).natAbs > skipgap)

instance (skipgap : Nat) (prev cur : LogEvent) : Decidable (jump_or_gap skipgap prev cur) := by
  unfold jump_or_gap; infer_instance

/-- A log with a backward jump (10 to 5) and a gap of 15 seconds (5 to 20). -/
def jump_log : List LogEvent :=
  [⟨10, 0, "vcan0", "123#11"⟩, ⟨5, 0, "vcan0", "123#22"⟩, ⟨20, 0, "vcan0", "123#33"⟩,
   ⟨21, 0, "vcan0", "123#44"⟩]

/-- A log whose whole seconds go from `LONG_MIN` to `LONG_MAX`. -/
def extreme_log : List LogEvent :=
  [⟨-9223372036854775808, 0, "vcan0", "123#11"⟩, ⟨9223372036854775807, 0, "vcan0", "123#22"⟩]

/-- A log whose whole seconds go from 0 to `LONG_MAX`. -/
def far_log : List LogEvent :=
  [⟨0, 0, "vcan0", "123#11"⟩, ⟨9223372036854775807, 0, "vcan0", "123#22"⟩]

/-- The jump log played twice in timestamp mode with a gap-skip threshold of 5 seconds,
from the clock reading 1000 s. -/
def jump_trace : List Release := replay ⟨true, 5, 1⟩ (pacer_init ⟨1000, 0⟩) jump_log 2

/-- The release number `i` of `jump_trace`. -/
def jump_release (i : Nat) : Release :=
  jump_trace.getD i ⟨true, ⟨0, 0, "", ""⟩, pacer_init ⟨0, 0⟩⟩

/-! ## Routing table (`asgn`, `get_txidx`, `get_txname`, `add_assignment`) -/

/-- The constant `CHANNELS` (line 63). -/
def CHANNELS : Nat := 20

/-- The constant `STDOUTIDX` (line 66). -/
def STDOUTIDX : Int := 65536

/-- The constant `IFNAMSIZ` of the system header `<net/if.h>`. -/
def IFNAMSIZ : Nat := 16

/-- The C `struct assignment` (lines 68-72). -/
structure assignment where
  txif : String
  txifidx : Int
  rxif : String
deriving DecidableEq, Repr

/-- An all-zero entry of the static array. -/
def asgn_zero : assignment := ⟨"", 0, ""⟩

/-- The static array `asgn[CHANNELS]` at program start. -/
def asgn_init : List assignment := List.replicate CHANNELS asgn_zero

/-- The array element `asgn[i]`. -/
def entry (asgn : List assignment) (i : Nat) : assignment := asgn.getD i asgn_zero

/-- The search loop of `get_txidx` and `get_txname` (lines 139-144, 156-161) with `n`
iterations left at index `i`: the value of `i` when the loop is left. -/
def rx_scan (asgn : List assignment) (logif_name : String) : Nat → Nat → Nat
  | 0, i => i
  | n + 1, i =>
    if (entry asgn i).rxif = "" then i
    else if (entry asgn i).rxif = logif_name then i
    else rx_scan asgn logif_name n (i + 1)

/-- The function `get_txidx` (lines 135-150); 0 means not found. -/
def get_txidx (asgn : List assignment) (logif_name : String) : Int :=
  let i := rx_scan asgn logif_name CHANNELS 0
  if i = CHANNELS ∨ (entry asgn i).rxif = "" then 0 else (entry asgn i).txifidx

/-- The function `get_txname` (lines 152-167); `none` is the null pointer. -/
def get_txname (asgn : List assignment) (logif_name : String) : Option String :=
  let i := rx_scan asgn logif_name CHANNELS 0
  if i = CHANNELS ∨ (entry asgn i).rxif = "" then none else some (entry asgn i).txif

/-- The free-entry loop of `add_assignment` (lines 176-179) with `n` iterations left at
index `i`: the value of `i` when the loop is left. -/
def free_scan (asgn : List assignment) : Nat → Nat → Nat
  | 0, i => i
  | n + 1, i => if (entry asgn i).txif = "" then i else free_scan asgn n (i + 1)

/-- The ways `add_assignment` returns: 0 (`ok`) or 1 after one of its four messages. -/
inductive AddResult where
  | ok
  | table_exceeded
  | txname_too_long
  | rxname_too_long
  | ifindex_failed
deriving DecidableEq, Repr

/-- The function `add_assignment` (lines 169-214).  `ifindex` is
`ioctl(socket, SIOCGIFINDEX, ...)`: `none` when it fails, else `ifr.ifr_ifindex`.  The
result is the return path together with the array as the call leaves it; `mode` and
`verbose` only feed the diagnostic `printf` and are left out. -/
def add_assignment (ifindex : String → Option Int) (asgn : List assignment)
    (txname rxname : String) : AddResult × List assignment :=
  let i := free_scan asgn CHANNELS 0
  if i = CHANNELS then (AddResult.table_exceeded, asgn)
  else if txname.length ≥ IFNAMSIZ then (AddResult.txname_too_long, asgn)
  else
    let asgn1 := asgn.set i { entry asgn i with txif := txname }
    if rxname.length ≥ IFNAMSIZ then (AddResult.rxname_too_long, asgn1)
    else
      let asgn2 := asgn1.set i { entry asgn1 i with rxif := rxname }
      if txname ≠ "stdout" then
        match ifindex txname with
        | none => (AddResult.ifindex_failed, asgn2)
        | some idx => (AddResult.ok, asgn2.set i { entry asgn2 i with txifidx := idx })
      else (AddResult.ok, asgn2.set i { entry asgn2 i with txifidx := STDOUTIDX })

/-- The fatal errors of the event loop body (each ends `main` with `return 1`). -/
inductive Fatal where
  | name_too_long
  | add_failed (r : AddResult)
  | wrong_frame_format
  | sendto_failed
deriving DecidableEq, Repr

/-- The outcome of lines 420-433 for one event. -/
structure Routed where
  asgn : List assignment
  txidx : Int
  fatal : Option Fatal
deriving DecidableEq, Repr

/-- Lines 420-433: the length check on the logged interface name, the lookup, and the
automatic assignment when nothing was found and no assignment was given on the command
line (`assignments = 0`). -/
def route (ifindex : String → Option Int) (assignments : Nat) (asgn : List assignment)
    (device : String) : Routed :=
  if device.length ≥ IFNAMSIZ then ⟨asgn, 0, some Fatal.name_too_long⟩
  else
    let txidx := get_txidx asgn device
    if txidx = 0 ∧ assignments = 0 then
      let r := add_assignment ifindex asgn device device
      if r.1 = AddResult.ok then ⟨r.2, get_txidx r.2 device, none⟩
      else ⟨r.2, txidx, some (Fatal.add_failed r.1)⟩
    else ⟨asgn, txidx, none⟩

/-- Lines 420-433 over the interface names of successive events; the run stops at the
first fatal error.  The rest of the loop body (lines 435-506) does not write to the table,
so this is the table of a run for as long as the run goes on. -/
def route_all (ifindex : String → Option Int) (assignments : Nat) :
    List assignment → List String → List assignment × Option Fatal
  | asgn, [] => (asgn, none)
  | asgn, d :: ds =>
    match (route ifindex assignments asgn d).fatal with
    | some f => ((route ifindex assignments asgn d).asgn, some f)
    | none => route_all ifindex assignments (route ifindex assignments asgn d).asgn ds

/-- Lines 333-355 after the split at `=`: the command-line assignments, as pairs
(write interface, log interface), are added in order; the first failure ends `main`. -/
def add_user (ifindex : String → Option Int) :
    List assignment → List (String × String) → AddResult × List assignment
  | asgn, [] => (AddResult.ok, asgn)
  | asgn, c :: cs =>
    if (add_assignment ifindex asgn c.1 c.2).1 = AddResult.ok then
      add_user ifindex (add_assignment ifindex asgn c.1 c.2).2 cs
    else add_assignment ifindex asgn c.1 c.2

/-! ## Dispatcher (lines 435-466) -/

/-- The constant `CAN_MTU` of `<linux/can.h>`. -/
def CAN_MTU : Nat := 16

/-- The constant `CAN_MAX_DLEN` of `<linux/can.h>`. -/
def CAN_MAX_DLEN : Nat := 8

/-- The constant `CANFD_MAX_DLEN` of `<linux/can.h>`. -/
def CANFD_MAX_DLEN : Nat := 64

/-- The services the dispatcher calls: `parse_canframe` of `lib.c` (the returned size is
0 when the text is no frame) and `sendto` on the raw socket (the returned byte count for
an interface index, a frame and a size). -/
structure Env (Frame : Type) where
  parse_canframe : String → Nat × Frame
  sendto : Int → Frame → Nat → Int

/-- What the loop body does to the outside, in order of appearance in the source: the
`printf` of `add_assignment` under `verbose > 1` (lines 209-211), `printf("%s", buf)`
with `fflush`, a call of `parse_canframe`, a call of `sendto`, the verbose print of a
sent frame. -/
inductive Effect (Frame : Type) where
  | print_added (mode rxif txif : String) (txifidx : Int)
  | print_line (buf : String)
  | parse (ascframe : String)
  | send (txidx : Int) (frame : Frame) (txmtu : Nat)
  | print_frame (txname : Option String) (device : String) (frame : Frame) (maxdlen : Nat)
      (diff_ts : timespec)
deriving DecidableEq, Repr

/-- The outcome of the loop body for one event: the table, what was done, and the fatal
error if `main` returned 1. -/
structure Handled (Frame : Type) where
  asgn : List assignment
  effects : List (Effect Frame)
  fatal : Option Fatal
deriving DecidableEq, Repr

/-- Lines 435-466: print the raw line for `STDOUTIDX`, decode and send for a positive
index, do nothing otherwise. -/
def dispatch {Frame : Type} (env : Env Frame) (verbose : Nat) (diff_ts : timespec)
    (asgn : List assignment) (txidx : Int) (buf device ascframe : String) : Handled Frame :=
  if txidx = STDOUTIDX then ⟨asgn, [Effect.print_line buf], none⟩
  else if txidx > 0 then
    let txmtu := (env.parse_canframe ascframe).1
    let frame := (env.parse_canframe ascframe).2
    if txmtu = 0 then ⟨asgn, [Effect.parse ascframe], some Fatal.wrong_frame_format⟩
    else if env.sendto txidx frame txmtu ≠ (txmtu : Int) then
      ⟨asgn, [Effect.parse ascframe, Effect.send txidx frame txmtu], some Fatal.sendto_failed⟩
    else if verbose ≠ 0 then
      ⟨asgn, [Effect.parse ascframe, Effect.send txidx frame txmtu,
        Effect.print_frame (get_txname asgn device) device frame
          (if txmtu = CAN_MTU then CAN_MAX_DLEN else CANFD_MAX_DLEN) diff_ts], none⟩
    else ⟨asgn, [Effect.parse ascframe, Effect.send txidx frame txmtu], none⟩
  else ⟨asgn, [], none⟩

/-- Lines 209-211, the end of a successful `add_assignment` call on the array `asgn`:
with `verbose > 1` it prints the mode and the entry it has just written. -/
def added_output {Frame : Type} (ifindex : String → Option Int) (mode : String)
    (verbose : Nat) (asgn : List assignment) (txname rxname : String) : List (Effect Frame) :=
  if (add_assignment ifindex asgn txname rxname).1 = AddResult.ok ∧ verbose > 1 then
    [Effect.print_added mode
      (entry (add_assignment ifindex asgn txname rxname).2 (free_scan asgn CHANNELS 0)).rxif
      (entry (add_assignment ifindex asgn txname rxname).2 (free_scan asgn CHANNELS 0)).txif
      (entry (add_assignment ifindex asgn txname rxname).2 (free_scan asgn CHANNELS 0)).txifidx]
  else []

/-- What lines 420-433 print: the output of the `add_assignment` call of line 430, which
is made when the name passed the length check, nothing was found and no assignment was
given on the command line. -/
def auto_output {Frame : Type} (ifindex : String → Option Int) (assignments verbose : Nat)
    (asgn : List assignment) (device : String) : List (Effect Frame) :=
  if device.length < IFNAMSIZ ∧ get_txidx asgn device = 0 ∧ assignments = 0 then
    added_output ifindex "auto" verbose asgn device device
  else []

/-- Lines 420-466: the loop body for one event between the sleep and the next read. -/
def handle_event {Frame : Type} (ifindex : String → Option Int) (env : Env Frame)
    (assignments verbose : Nat) (diff_ts : timespec) (asgn : List assignment)
    (buf device ascframe : String) : Handled Frame :=
  match (route ifindex assignments asgn device).fatal with
  | some f => ⟨(route ifindex assignments asgn device).asgn, [], some f⟩
  | none =>
    ⟨(route ifindex assignments asgn device).asgn,
      auto_output ifindex assignments verbose asgn device ++
        (dispatch env verbose diff_ts (route ifindex assignments asgn device).asgn
          (route ifindex assignments asgn device).txidx buf device ascframe).effects,
      (dispatch env verbose diff_ts (route ifindex assignments asgn device).asgn
        (route ifindex assignments asgn device).txidx buf device ascframe).fatal⟩

/-- A decoder that accepts no text and a socket that sends nothing; frames are numbers. -/
def env_reject : Env Nat := ⟨fun _ => (0, 0), fun _ _ _ => -1⟩

/-- The entries `add_assignment` treats as occupied (`txif[0] != 0`). -/
def occupied (asgn : List assignment) : List assignment :=
  asgn.filter (fun a => a.txif ≠ "")

/-- The index a name resolves to at assignment time (lines 198-207): `STDOUTIDX` for
the name `stdout`, else what `SIOCGIFINDEX` gives. -/
def resolve (ifindex : String → Option Int) (txname : String) : Option Int :=
  if txname ≠ "stdout" then ifindex txname else some STDOUTIDX

/-- The distinct names of a list in the order of their first occurrence, after `seen`. -/
def first_seen (seen : List String) : List String → List String
  | [] => seen
  | d :: ds => if d ∈ seen then first_seen seen ds else first_seen (seen ++ [d]) ds

/-- The table whose first entries are `es` and whose other entries are zero. -/
def table_of (es : List assignment) : List assignment :=
  es ++ List.replicate (CHANNELS - es.length) asgn_zero

/-- The entry automatic assignment makes for a logged interface name. -/
def auto_entry (ifindex : String → Option Int) (d : String) : assignment :=
  ⟨d, (resolve ifindex d).getD 0, d⟩

/-- A system with three interfaces: `vcan0`, `vcan1` and `can0` have the indices 3, 4, 5. -/
def ifindex_demo (name : String) : Option Int :=
  if name = "vcan0" then some 3 else if name = "vcan1" then some 4
  else if name = "can0" then some 5 else none

/-- The index of the first entry of `es` whose log interface is `name`, 0 when there is
none. -/
def lookup (es : List assignment) (name : String) : Int :=
  match es with
  | [] => 0
  | a :: rest => if a.rxif = name then a.txifidx else lookup rest name

/-- A logged interface name the event loop can assign automatically: non-empty (as
`%s` scans it), shorter than `IFNAMSIZ`, and resolving to a non-zero interface index. -/
def good_device (ifindex : String → Option Int) (d : String) : Prop :=
  d ≠ "" ∧ d.length < IFNAMSIZ ∧ ∃ h, resolve ifindex d = some h ∧ h ≠ 0

/-- A call of `add_assignment` with non-empty names shorter than `IFNAMSIZ` whose write
interface resolves; `c.1` is the write interface, `c.2` the log interface. -/
def good_call (ifindex : String → Option Int) (c : String × String) : Prop :=
  c.1 ≠ "" ∧ c.2 ≠ "" ∧ c.1.length < IFNAMSIZ ∧ c.2.length < IFNAMSIZ ∧
    ∃ h, resolve ifindex c.1 = some h

/-- The array after a sequence of `add_assignment` calls, whatever each call returned. -/
def add_seq (ifindex : String → Option Int) :
    List assignment → List (String × String) → List assignment
  | asgn, [] => asgn
  | asgn, c :: cs => add_seq ifindex (add_assignment ifindex asgn c.1 c.2).2 cs

/-- Twenty-one interface names. -/
def many_names : List String :=
  ["can0", "can1", "can2", "can3", "can4", "can5", "can6", "can7", "can8", "can9", "can10",
   "can11", "can12", "can13", "can14", "can15", "can16", "can17", "can18", "can19", "can20"]

/-- Every name of `many_names` is an interface; its index is its position plus one. -/
def ifindex_many (name : String) : Option Int :=
  if name ∈ many_names then some (many_names.indexOf name + 1) else none

instance (ifindex : String → Option Int) (d : String) : Decidable (good_device ifindex d) :=
  decidable_of_iff
    (d ≠ "" ∧ d.length < IFNAMSIZ ∧ (resolve ifindex d).isSome = true ∧ resolve ifindex d ≠ some 0)
    (by
      unfold good_device
      constructor
      · rintro ⟨h1, h2, h3, h4⟩
        obtain ⟨h, hh⟩ := Option.isSome_iff_exists.mp h3
        exact ⟨h1, h2, h, hh, fun h0 => h4 (by rw [hh, h0])⟩
      · rintro ⟨h1, h2, h, hh, h0⟩
        refine ⟨h1, h2, by rw [hh]; rfl, ?_⟩
        rw [hh]
        intro e
        exact h0 (Option.some.inj e))

instance (ifindex : String → Option Int) (c : String × String) : Decidable (good_call ifindex c) :=
  decidable_of_iff
    (c.1 ≠ "" ∧ c.2 ≠ "" ∧ c.1.length < IFNAMSIZ ∧ c.2.length < IFNAMSIZ ∧
      (resolve ifindex c.1).isSome = true)
    (by
      unfold good_call
      constructor
      · rintro ⟨h1, h2, h3, h4, h5⟩
        exact ⟨h1, h2, h3, h4, Option.isSome_iff_exists.mp h5⟩
      · rintro ⟨h1, h2, h3, h4, h, hh⟩
        exact ⟨h1, h2, h3, h4, by rw [hh]; rfl⟩)

/-! ## Log reader (the two `fgets` loops of `main`) -/

/-- The constant `COMMENTSZ` (line 64). -/
def COMMENTSZ : Nat := 200

/-- The constant `BUFSZ` (line 65).  `sizeof("(1345212884.318850)")` is 20; `CL_CFSZ`
comes from `lib.h` and is a parameter. -/
def BUFSZ (CL_CFSZ : Nat) : Nat := 20 + IFNAMSIZ + 4 + CL_CFSZ + COMMENTSZ

/-- The characters `fgets` stores when it may store `k` of them, and the rest of the
stream: it stops after a newline, at the end of the stream, or when `k` are stored. -/
def fgets_chars : Nat → List Char → List Char × List Char
  | 0, s => ([], s)
  | _ + 1, [] => ([], [])
  | k + 1, c :: s =>
    if c = '\n' then ([c], s) else (c :: (fgets_chars k s).1, (fgets_chars k s).2)

/-- The library function `fgets(buf, size, infile)` on a text stream: `none` (the null
pointer) at the end of the file, else the buffer and the rest of the stream. -/
def fgets (size : Nat) (stream : List Char) : Option (List Char × List Char) :=
  match stream with
  | [] => none
  | _ :: _ => some (fgets_chars (size - 1) stream)

/-- How a read loop ends: `fgets` returned the null pointer, the comment-line check
failed (`return 1`), or `buf` holds a line that begins with `(`. -/
inductive ReadResult where
  | eof
  | too_long
  | line (buf : String) (rest : List Char)
deriving DecidableEq, Repr

/-- The loop of lines 374-379 and 469-474, `fuel` iterations at most:
`while ((fret = fgets(buf, BUFSZ-1, infile)) != NULL && buf[0] != '(')` with the length
check on the lines it skips.  `none` when the iterations run out. -/
def read_loop (bufsz : Nat) : Nat → List Char → Option ReadResult
  | 0, _ => none
  | fuel + 1, stream =>
    match fgets (bufsz - 1) stream with
    | none => some ReadResult.eof
    | some (buf, rest) =>
      if buf.head? = some '(' then some (ReadResult.line (String.mk buf) rest)
      else if buf.length ≥ bufsz - 2 then some ReadResult.too_long
      else read_loop bufsz fuel rest

/-- The read loop with one iteration per remaining character and one for the end of the
file; each iteration consumes at least one character, so the iterations do not run out
(`read_loop_total`, `read_loop_fuel`). -/
def read_frame_line (bufsz : Nat) (stream : List Char) : Option ReadResult :=
  read_loop bufsz (stream.length + 1) stream

/-- An event line of 621 characters: `(1.000000) can0 123#`, six hundred times `1`, and
the newline. -/
def long_event_line : List Char :=
  "(1.000000) can0 123#".data ++ List.replicate 600 '1' ++ ['\n']

/-! ## One event from the stream to the dispatcher -/

theorem ts_add_zero (t : timespec) (h : normalized t) (hs : in_long t.tv_sec) :
    ts_add t ⟨0, 0⟩ = t := by
  obtain ⟨h0, h1⟩ := h
  obtain ⟨h2, h3⟩ := hs
  simp only [LONG_MIN, LONG_MAX] at h2 h3
  have e1 : wrap_long (t.tv_sec + 0) = t.tv_sec := by simp only [wrap_long]; omega
  have e2 : wrap_long (t.tv_nsec + 0) = t.tv_nsec := by simp only [wrap_long]; omega
  simp only [ts_add, e1, e2]
  rw [if_neg (by omega)]

theorem ts_add_in_long (a b : timespec) : in_long (ts_add a b).tv_sec := by
  simp only [ts_add, in_long, LONG_MIN, LONG_MAX, wrap_long]
  split_ifs <;> (try simp only [] at *) <;> omega

theorem labs_wrap_long (d : Int) (h : in_long d) :
    labs (wrap_long d) % 18446744073709551616 = d.natAbs := by
  obtain ⟨h1, h2⟩ := h
  simp only [LONG_MIN, LONG_MAX] at h1 h2
  simp only [labs, wrap_long]
  split_ifs <;> omega

theorem wrap_long_id (x : Int) (h1 : -9223372036854775808 ≤ x)
    (h2 : x ≤ 9223372036854775807) : wrap_long x = x := by
  simp only [wrap_long]; omega

theorem ts_add_step (t d : timespec) (R D : Nat)
    (hn : normalized t) (h0 : 0 ≤ t.tv_sec)
    (hR : t.tv_sec + ((R + D : Nat) : Int) ≤ LONG_MAX)
    (d0 : 0 ≤ d.tv_sec) (d1 : d.tv_sec + 1 ≤ (D : Int))
    (d2 : 0 ≤ d.tv_nsec) (d3 : d.tv_nsec < 1000000000) :
    normalized (ts_add t d) ∧ 0 ≤ (ts_add t d).tv_sec ∧
      (ts_add t d).tv_sec + (R : Int) ≤ LONG_MAX ∧ ts_le t (ts_add t d) := by
  obtain ⟨n0, n1⟩ := hn
  simp only [LONG_MAX] at hR ⊢
  push_cast at hR
  have e1 : wrap_long (t.tv_sec + d.tv_sec) = t.tv_sec + d.tv_sec :=
    wrap_long_id _ (by omega) (by omega)
  have e2 : wrap_long (t.tv_nsec + d.tv_nsec) = t.tv_nsec + d.tv_nsec :=
    wrap_long_id _ (by omega) (by omega)
  have e3 : wrap_long (t.tv_sec + d.tv_sec + 1) = t.tv_sec + d.tv_sec + 1 :=
    wrap_long_id _ (by omega) (by omega)
  have e4 : wrap_long (t.tv_nsec + d.tv_nsec - 1000000000)
      = t.tv_nsec + d.tv_nsec - 1000000000 :=
    wrap_long_id _ (by omega) (by omega)
  simp only [ts_add, e1, e2, e3, e4, normalized, ts_le]
  split_ifs <;> (try simp only [] at *) <;> omega

theorem ts_subtract_bounds (a b : timespec) (B : Nat) (hB : (B : Int) + 2 ≤ LONG_MAX)
    (a0 : 0 ≤ a.tv_sec) (a1 : a.tv_sec ≤ (B : Int))
    (a2 : 0 ≤ a.tv_nsec) (a3 : a.tv_nsec ≤ 999999000)
    (b0 : -1 ≤ b.tv_sec) (b1 : b.tv_sec ≤ (B : Int))
    (b2 : -1 ≤ b.tv_nsec) (b3 : b.tv_nsec ≤ 999999000) :
    0 ≤ (ts_subtract a b).tv_sec ∧ (ts_subtract a b).tv_sec ≤ (B : Int) + 1 ∧
      0 ≤ (ts_subtract a b).tv_nsec ∧ (ts_subtract a b).tv_nsec < 1000000000 := by
  simp only [LONG_MAX] at hB
  have e1 : wrap_long (a.tv_sec - b.tv_sec) = a.tv_sec - b.tv_sec :=
    wrap_long_id _ (by omega) (by omega)
  have e2 : wrap_long (a.tv_sec - b.tv_sec - 1) = a.tv_sec - b.tv_sec - 1 :=
    wrap_long_id _ (by omega) (by omega)
  have e3 : wrap_long (a.tv_nsec + 1000000000) = a.tv_nsec + 1000000000 :=
    wrap_long_id _ (by omega) (by omega)
  have e4 : wrap_long (a.tv_nsec + 1000000000 - b.tv_nsec)
      = a.tv_nsec + 1000000000 - b.tv_nsec :=
    wrap_long_id _ (by omega) (by omega)
  have e5 : wrap_long (a.tv_nsec - b.tv_nsec) = a.tv_nsec - b.tv_nsec :=
    wrap_long_id _ (by omega) (by omega)
  simp only [ts_subtract, e1, e2, e3, e4, e5]
  split_ifs <;> (try simp only [] at *) <;> omega

theorem pace_first_inv (cfg : Config) (B R : Nat) (st : Pacer) (e : LogEvent)
    (hst : PacerInv B (R + (B + cfg.gap / 1000 + 2)) st) (he : well_formed e)
    (h0 : 0 ≤ e.sec) (hB : e.sec ≤ (B : Int)) :
    PacerInv B R (pace_first cfg st e) ∧
      ts_le st.target_ts (pace_first cfg st e).target_ts := by
  obtain ⟨hn, t0, t1, l0, l1, l2, l3⟩ := hst
  obtain ⟨e0, e1⟩ := he
  have t1b := t1
  simp only [LONG_MAX] at t1b
  push_cast at t1b
  have eu : wrap_long (e.usec * 1000) = e.usec * 1000 := wrap_long_id _ (by omega) (by omega)
  simp only [pace_first, eu]
  by_cases hts : cfg.use_timestamps = true
  · simp only [hts, if_true]
    have hd : ∀ d : timespec, (0 ≤ d.tv_sec ∧ d.tv_sec ≤ (B : Int) + 1 ∧
        0 ≤ d.tv_nsec ∧ d.tv_nsec < 1000000000) →
        PacerInv B R ⟨ts_add st.target_ts d, ⟨e.sec, e.usec * 1000⟩, d⟩ ∧
          ts_le st.target_ts (ts_add st.target_ts d) := by
      intro d ⟨d0, d1, d2, d3⟩
      obtain ⟨r1, r2, r3, r4⟩ := ts_add_step st.target_ts d R (B + cfg.gap / 1000 + 2)
        hn t0 t1 d0 (by push_cast; omega) d2 d3
      exact ⟨⟨r1, r2, r3, by simp only []; omega, by simp only []; omega,
        by simp only []; omega, by simp only []; omega⟩, r4⟩
    split_ifs
    · exact hd ⟨0, 0⟩ ⟨by simp, by simp; omega, by simp, by simp⟩
    · exact hd _ (ts_subtract_bounds ⟨e.sec, e.usec * 1000⟩ st.last_log_ts B
        (by simp only [LONG_MAX]; omega) h0 hB (by simp only []; omega) (by simp only []; omega)
        l0 l1 l2 l3)
  · simp only [hts]
    obtain ⟨r1, r2, r3, r4⟩ := ts_add_step st.target_ts (sleep_ts cfg) R
      (B + cfg.gap / 1000 + 2) hn t0 t1 (by simp only [sleep_ts]; omega) (by simp only [sleep_ts]; push_cast; omega)
      (by simp only [sleep_ts]; omega) (by simp only [sleep_ts]; omega)
    exact ⟨⟨r1, r2, r3, l0, l1, l2, l3⟩, r4⟩

theorem pace_next_inv (cfg : Config) (B R : Nat) (st : Pacer) (e : LogEvent)
    (hst : PacerInv B (R + (B + cfg.gap / 1000 + 2)) st) (he : well_formed e)
    (h0 : 0 ≤ e.sec) (hB : e.sec ≤ (B : Int)) :
    PacerInv B R (pace_next cfg st e) ∧
      ts_le st.target_ts (pace_next cfg st e).target_ts := by
  obtain ⟨hn, t0, t1, l0, l1, l2, l3⟩ := hst
  obtain ⟨e0, e1⟩ := he
  have t1b := t1
  simp only [LONG_MAX] at t1b
  push_cast at t1b
  simp only [pace_next]
  by_cases hts : cfg.use_timestamps = true
  · simp only [hts, if_true]
    have hd : ∀ d : timespec, (0 ≤ d.tv_sec ∧ d.tv_sec ≤ (B : Int) + 1 ∧
        0 ≤ d.tv_nsec ∧ d.tv_nsec < 1000000000) →
        PacerInv B R ⟨ts_add st.target_ts d, ⟨e.sec, e.usec⟩, d⟩ ∧
          ts_le st.target_ts (ts_add st.target_ts d) := by
      intro d ⟨d0, d1, d2, d3⟩
      obtain ⟨r1, r2, r3, r4⟩ := ts_add_step st.target_ts d R (B + cfg.gap / 1000 + 2)
        hn t0 t1 d0 (by push_cast; omega) d2 d3
      exact ⟨⟨r1, r2, r3, by simp only []; omega, by simp only []; omega,
        by simp only []; omega, by simp only []; omega⟩, r4⟩
    split_ifs
    · exact hd ⟨0, 0⟩ ⟨by simp, by simp; omega, by simp, by simp⟩
    · exact hd _ (ts_subtract_bounds ⟨e.sec, e.usec⟩ st.last_log_ts B
        (by simp only [LONG_MAX]; omega) h0 hB (by simp only []; omega) (by simp only []; omega)
        l0 l1 l2 l3)
  · simp only [hts]
    obtain ⟨r1, r2, r3, r4⟩ := ts_add_step st.target_ts (sleep_ts cfg) R
      (B + cfg.gap / 1000 + 2) hn t0 t1 (by simp only [sleep_ts]; omega) (by simp only [sleep_ts]; push_cast; omega)
      (by simp only [sleep_ts]; omega) (by simp only [sleep_ts]; omega)
    exact ⟨⟨r1, r2, r3, l0, l1, l2, l3⟩, r4⟩

theorem play_rest_targets (cfg : Config) (B R : Nat) (es : List LogEvent)
    (hes : ∀ e ∈ es, well_formed e ∧ 0 ≤ e.sec ∧ e.sec ≤ (B : Int)) :
    ∀ (st : Pacer) (tail : List timespec),
      PacerInv B (es.length * (B + cfg.gap / 1000 + 2) + R) st →
      (PacerInv B R (es.foldl (pace_next cfg) st) →
        List.Chain (fun a b => normalized b ∧ ts_le a b)
          (es.foldl (pace_next cfg) st).target_ts tail) →
      List.Chain (fun a b => normalized b ∧ ts_le a b) st.target_ts
        ((play_rest cfg st es).map (fun r => r.st.target_ts) ++ tail) := by
  induction es with
  | nil =>
    intro st tail hst h
    simp only [List.length_nil, Nat.zero_mul, Nat.zero_add] at hst
    exact h hst
  | cons e es ih =>
    intro st tail hst h
    obtain ⟨he, h0, hB⟩ := hes e (List.mem_cons_self _ _)
    have hbud : (e :: es).length * (B + cfg.gap / 1000 + 2) + R
        = (es.length * (B + cfg.gap / 1000 + 2) + R) + (B + cfg.gap / 1000 + 2) := by
      simp only [List.length_cons]; ring
    rw [hbud] at hst
    obtain ⟨hinv, hle⟩ := pace_next_inv cfg B _ st e hst he h0 hB
    simp only [play_rest, List.map_cons, List.cons_append, List.chain_cons]
    refine ⟨⟨hinv.1, hle⟩, ?_⟩
    exact ih (fun x hx => hes x (List.mem_cons_of_mem _ hx)) _ tail hinv h

theorem replay_targets (cfg : Config) (B : Nat) (events : List LogEvent)
    (hev : ∀ e ∈ events, well_formed e ∧ 0 ≤ e.sec ∧ e.sec ≤ (B : Int)) :
    ∀ (loops : Nat) (st : Pacer),
      PacerInv B (loops * events.length * (B + cfg.gap / 1000 + 2)) st →
      List.Chain (fun a b => normalized b ∧ ts_le a b) st.target_ts
        ((replay cfg st events loops).map (fun r => r.st.target_ts)) := by
  intro loops
  induction loops with
  | zero => intro st _; simp [replay]
  | succ n ih =>
    intro st hst
    cases events with
    | nil => simp [replay]
    | cons e es =>
      obtain ⟨he, h0, hB⟩ := hev e (List.mem_cons_self _ _)
      have hbud : (n + 1) * (e :: es).length * (B + cfg.gap / 1000 + 2)
          = (es.length * (B + cfg.gap / 1000 + 2)
              + n * (e :: es).length * (B + cfg.gap / 1000 + 2))
            + (B + cfg.gap / 1000 + 2) := by
        simp only [List.length_cons]; ring
      rw [hbud] at hst
      obtain ⟨hinv, hle⟩ := pace_first_inv cfg B _ st e hst he h0 hB
      simp only [replay, play_pass, List.map_append, List.map_cons, List.cons_append,
        List.chain_cons]
      refine ⟨⟨hinv.1, hle⟩, ?_⟩
      refine play_rest_targets cfg B _ es (fun x hx => hev x (List.mem_cons_of_mem _ hx))
        _ _ hinv ?_
      intro hfin
      exact ih _ hfin

theorem replay_events (cfg : Config) (events : List LogEvent) :
    ∀ (loops : Nat) (st : Pacer),
      (replay cfg st events loops).map (fun r => r.ev) = (List.replicate loops events).flatten := by
  have hrest : ∀ (es : List LogEvent) (st : Pacer),
      (play_rest cfg st es).map (fun r => r.ev) = es := by
    intro es
    induction es with
    | nil => intro st; rfl
    | cons e es ih => intro st; simp [play_rest, ih]
  intro loops
  induction loops with
  | zero => intro st; simp [replay]
  | succ n ih =>
    intro st
    cases events with
    | nil => simp [replay]
    | cons e es => simp [replay, play_pass, hrest, ih, List.replicate_succ]

/-- The zero-delta conditions of the first-event block (line 396-398), in timestamp mode. -/
theorem pace_first_zero (skipgap gap : Nat) (st : Pacer) (e : LogEvent)
    (hs : in_long st.target_ts.tv_sec)
    (h : st.last_log_ts = ⟨-1, -1⟩ ∨ e.sec < st.last_log_ts.tv_sec ∨
      (1 ≤ skipgap ∧ in_long (st.last_log_ts.tv_sec - e.sec) ∧
        (st.last_log_ts.tv_sec - e.sec).natAbs > skipgap)) :
    (pace_first ⟨true, skipgap, gap⟩ st e).diff_ts = ⟨0, 0⟩ ∧
    (normalized st.target_ts → (pace_first ⟨true, skipgap, gap⟩ st e).target_ts = st.target_ts) := by
  have hc : (st.last_log_ts.tv_sec = -1 ∧ st.last_log_ts.tv_nsec = -1) ∨
      st.last_log_ts.tv_sec > e.sec ∨
      gap_exceeded ⟨true, skipgap, gap⟩ st.last_log_ts.tv_sec e.sec := by
    rcases h with h | h | ⟨h1, h2, h3⟩
    · left; rw [h]; exact ⟨rfl, rfl⟩
    · right; left; exact h
    · right; right
      refine ⟨by simp only []; omega, ?_⟩
      rw [labs_wrap_long _ h2]
      simp only []
      omega
  simp only [pace_first, if_true, if_pos hc]
  exact ⟨trivial, fun hn => ts_add_zero _ hn hs⟩

/-- The zero-delta conditions of the later-event block (line 490-491), in timestamp mode. -/
theorem pace_next_zero (skipgap gap : Nat) (st : Pacer) (e : LogEvent)
    (hs : in_long st.target_ts.tv_sec)
    (h : e.sec < st.last_log_ts.tv_sec ∨
      (1 ≤ skipgap ∧ in_long (st.last_log_ts.tv_sec - e.sec) ∧
        (st.last_log_ts.tv_sec - e.sec).natAbs > skipgap)) :
    (pace_next ⟨true, skipgap, gap⟩ st e).diff_ts = ⟨0, 0⟩ ∧
    (normalized st.target_ts → (pace_next ⟨true, skipgap, gap⟩ st e).target_ts = st.target_ts) := by
  have hc : st.last_log_ts.tv_sec > e.sec ∨
      gap_exceeded ⟨true, skipgap, gap⟩ st.last_log_ts.tv_sec e.sec := by
    rcases h with h | ⟨h1, h2, h3⟩
    · left; exact h
    · right
      refine ⟨by simp only []; omega, ?_⟩
      rw [labs_wrap_long _ h2]
      simp only []
      omega
  simp only [pace_next, if_true, if_pos hc]
  exact ⟨trivial, fun hn => ts_add_zero _ hn hs⟩

theorem pace_first_linked (skipgap gap : Nat) (st : Pacer) (e : LogEvent) :
    (pace_first ⟨true, skipgap, gap⟩ st e).last_log_ts.tv_sec = e.sec ∧
      in_long (pace_first ⟨true, skipgap, gap⟩ st e).target_ts.tv_sec := by
  simp only [pace_first, if_true]
  exact ⟨trivial, ts_add_in_long _ _⟩

theorem pace_next_linked (skipgap gap : Nat) (st : Pacer) (e : LogEvent) :
    (pace_next ⟨true, skipgap, gap⟩ st e).last_log_ts.tv_sec = e.sec ∧
      in_long (pace_next ⟨true, skipgap, gap⟩ st e).target_ts.tv_sec := by
  simp only [pace_next, if_true]
  exact ⟨trivial, ts_add_in_long _ _⟩

theorem play_rest_zero (skipgap gap : Nat) (es : List LogEvent) :
    ∀ (a : Release) (tail : List Release),
      (a.st.last_log_ts.tv_sec = a.ev.sec ∧ in_long a.st.target_ts.tv_sec) →
      (∀ b : Release, (b.st.last_log_ts.tv_sec = b.ev.sec ∧ in_long b.st.target_ts.tv_sec) →
        b.st = es.foldl (pace_next ⟨true, skipgap, gap⟩) a.st →
        List.Chain (fun x y => jump_or_gap skipgap x.ev y.ev → zero_delta x.st.target_ts y) b tail) →
      List.Chain (fun x y => jump_or_gap skipgap x.ev y.ev → zero_delta x.st.target_ts y) a
        (play_rest ⟨true, skipgap, gap⟩ a.st es ++ tail) := by
  induction es with
  | nil => intro a tail ha h; exact h a ha rfl
  | cons e es ih =>
    intro a tail ha h
    simp only [play_rest, List.cons_append, List.chain_cons]
    refine ⟨?_, ?_⟩
    · intro hj
      unfold jump_or_gap at hj
      rw [← ha.1] at hj
      exact pace_next_zero skipgap gap a.st e ha.2 hj
    · exact ih ⟨false, e, pace_next ⟨true, skipgap, gap⟩ a.st e⟩ tail
        (pace_next_linked skipgap gap a.st e) (fun b hb hst => h b hb hst)

theorem replay_zero (skipgap gap : Nat) (events : List LogEvent) :
    ∀ (loops : Nat) (a : Release),
      (a.st.last_log_ts.tv_sec = a.ev.sec ∧ in_long a.st.target_ts.tv_sec) →
      List.Chain (fun x y => jump_or_gap skipgap x.ev y.ev → zero_delta x.st.target_ts y) a
        (replay ⟨true, skipgap, gap⟩ a.st events loops) := by
  intro loops
  induction loops with
  | zero => intro a _; simp [replay]
  | succ n ih =>
    intro a ha
    cases events with
    | nil => simp [replay]
    | cons e es =>
      simp only [replay, play_pass, List.cons_append, List.chain_cons]
      refine ⟨?_, ?_⟩
      · intro hj
        unfold jump_or_gap at hj
        rw [← ha.1] at hj
        exact pace_first_zero skipgap gap a.st e ha.2 (Or.inr hj)
      · refine play_rest_zero skipgap gap es
          ⟨true, e, pace_first ⟨true, skipgap, gap⟩ a.st e⟩ _
          (pace_first_linked skipgap gap a.st e) ?_
        intro b hb hst
        have := ih b hb
        rw [hst] at this
        exact this

theorem replay_chain_zero (skipgap gap : Nat) (T0 : timespec) (events : List LogEvent)
    (loops : Nat) :
    List.Chain' (fun a b => jump_or_gap skipgap a.ev b.ev → zero_delta a.st.target_ts b)
      (replay ⟨true, skipgap, gap⟩ (pacer_init T0) events loops) := by
  cases loops with
  | zero => simp [replay]
  | succ n =>
    cases events with
    | nil => simp [replay]
    | cons e es =>
      simp only [replay, play_pass, List.cons_append, List.Chain']
      refine play_rest_zero skipgap gap es
        ⟨true, e, pace_first ⟨true, skipgap, gap⟩ (pacer_init T0) e⟩ _
        (pace_first_linked skipgap gap _ e) ?_
      intro b hb hst
      have := replay_zero skipgap gap (e :: es) n b hb
      rw [hst] at this
      exact this

theorem chain_adjacent {α : Type} (R : α → α → Prop) :
    ∀ (pre : List α) (a b : α) (post : List α),
      List.Chain' R (pre ++ a :: b :: post) → R a b := by
  intro pre
  induction pre with
  | nil =>
    intro a b post h
    simp only [List.nil_append, List.Chain', List.chain_cons] at h
    exact h.1
  | cons x pre ih =>
    intro a b post h
    exact ih a b post (List.Chain'.tail h)

/-- C2 (amended): in timestamp mode, with the clock reading a `long` value, the first
event of the run gets a zero release delta, and so does every event (the first of a pass
or a later one) whose whole seconds are less than those of the event before it, or differ
from them by more than a configured gap-skip threshold `skipgap ≥ 1` while the difference
fits a `long`; a normalized release target is then left unchanged. -/
theorem zero_delta_on_first_jump_or_gap (skipgap gap : Nat) (T0 : timespec)
    (events : List LogEvent) (loops : Nat) (hT : in_long T0.tv_sec) :
    (∀ r, (replay ⟨true, skipgap, gap⟩ (pacer_init T0) events loops).head? = some r →
      zero_delta T0 r) ∧
    (∀ (pre : List Release) (a b : Release) (post : List Release),
      replay ⟨true, skipgap, gap⟩ (pacer_init T0) events loops = pre ++ a :: b :: post →
      jump_or_gap skipgap a.ev b.ev → zero_delta a.st.target_ts b) := by
  constructor
  · cases loops with
    | zero => simp [replay]
    | succ n =>
      cases events with
      | nil => simp [replay]
      | cons e es =>
        simp only [replay, play_pass, List.cons_append, List.head?_cons, Option.some.injEq]
        intro r hr
        subst hr
        exact pace_first_zero skipgap gap (pacer_init T0) e hT (Or.inl rfl)
  · intro pre a b post heq
    have h := replay_chain_zero skipgap gap T0 events loops
    rw [heq] at h
    exact chain_adjacent _ pre a b post h

/-- C2 on the jump log played twice with a gap-skip threshold of 5 seconds: the second
event jumps back (10 to 5), the third skips a gap (5 to 20), and the first event of the
second pass jumps back (21 to 10); each gets a zero delta and keeps the target. -/
theorem zero_delta_on_first_jump_or_gap_witness :
    in_long 1000 ∧
    jump_trace.map (fun r => (r.first, r.ev.sec, r.st.diff_ts, r.st.target_ts))
      = [(true, 10, ⟨0, 0⟩, ⟨1000, 0⟩), (false, 5, ⟨0, 0⟩, ⟨1000, 0⟩),
         (false, 20, ⟨0, 0⟩, ⟨1000, 0⟩), (false, 21, ⟨1, 0⟩, ⟨1001, 0⟩),
         (true, 10, ⟨0, 0⟩, ⟨1001, 0⟩), (false, 5, ⟨0, 0⟩, ⟨1001, 0⟩),
         (false, 20, ⟨0, 0⟩, ⟨1001, 0⟩), (false, 21, ⟨1, 0⟩, ⟨1002, 0⟩)] ∧
    (∀ r, jump_trace.head? = some r → zero_delta ⟨1000, 0⟩ r) ∧
    (jump_or_gap 5 (jump_release 0).ev (jump_release 1).ev ∧
      zero_delta (jump_release 0).st.target_ts (jump_release 1)) ∧
    (jump_or_gap 5 (jump_release 1).ev (jump_release 2).ev ∧
      zero_delta (jump_release 1).st.target_ts (jump_release 2)) ∧
    (jump_or_gap 5 (jump_release 3).ev (jump_release 4).ev ∧
      zero_delta (jump_release 3).st.target_ts (jump_release 4)) :=
  ⟨by decide, by decide,
    (zero_delta_on_first_jump_or_gap 5 1 ⟨1000, 0⟩ jump_log 2 (by decide)).1,
    ⟨by decide, (zero_delta_on_first_jump_or_gap 5 1 ⟨1000, 0⟩ jump_log 2 (by decide)).2
      (jump_trace.take 0) (jump_release 0) (jump_release 1) (jump_trace.drop 2)
      (by decide) (by decide)⟩,
    ⟨by decide, (zero_delta_on_first_jump_or_gap 5 1 ⟨1000, 0⟩ jump_log 2 (by decide)).2
      (jump_trace.take 1) (jump_release 1) (jump_release 2) (jump_trace.drop 3)
      (by decide) (by decide)⟩,
    ⟨by decide, (zero_delta_on_first_jump_or_gap 5 1 ⟨1000, 0⟩ jump_log 2 (by decide)).2
      (jump_trace.take 3) (jump_release 3) (jump_release 4) (jump_trace.drop 5)
      (by decide) (by decide)⟩⟩

/-- C2 as stated fails when the difference of the whole seconds overflows: on the
extreme log (seconds `LONG_MIN`, then `LONG_MAX`) with a gap-skip threshold of 1 second
the absolute difference of the whole seconds is `2^64 - 1 > 1`, but the `long` difference
wraps to 1, `labs` gives 1, the threshold is not exceeded, and the second event gets the
delta `ts_subtract` computes, which is not zero. -/
theorem gap_overflow_counterexample :
    (1 ≤ 1 ∧ ((-9223372036854775808 : Int) - 9223372036854775807).natAbs > 1) ∧
    (replay ⟨true, 1, 1⟩ (pacer_init ⟨1000, 0⟩) extreme_log 1).map
        (fun r => (r.ev.sec, r.st.diff_ts, r.st.target_ts))
      = [(-9223372036854775808, ⟨0, 0⟩, ⟨1000, 0⟩),
         (9223372036854775807, ⟨-1, 0⟩, ⟨999, 0⟩)] := by
  decide

/-- C3 (amended): in both pacing modes, for every log of well-formed events with whole
seconds in `0 .. B`, every pass count and every gap/skip configuration, starting from a
normalized target with non-negative seconds that leaves room below `LONG_MAX` for
`B + gap / 1000 + 2` seconds per release (so that no seconds sum overflows), every release
target is normalized and not earlier than the target before it; the releases are the
events of the log, pass after pass. -/
theorem release_targets_nondecreasing (cfg : Config) (T0 : timespec)
    (events : List LogEvent) (loops : Nat) (B : Nat)
    (hT : normalized T0) (hT0 : 0 ≤ T0.tv_sec)
    (hev : ∀ e ∈ events, well_formed e ∧ 0 ≤ e.sec ∧ e.sec ≤ (B : Int))
    (hroom : T0.tv_sec + ((loops * events.length * (B + cfg.gap / 1000 + 2) : Nat) : Int)
      ≤ LONG_MAX) :
    List.Chain (fun a b => normalized b ∧ ts_le a b) T0
      ((replay cfg (pacer_init T0) events loops).map (fun r => r.st.target_ts)) ∧
    (replay cfg (pacer_init T0) events loops).map (fun r => r.ev)
      = (List.replicate loops events).flatten := by
  refine ⟨replay_targets cfg B events hev loops (pacer_init T0) ?_, replay_events cfg events loops _⟩
  refine ⟨hT, hT0, hroom, ?_, ?_, ?_, ?_⟩ <;> simp only [pacer_init] <;> omega

/-- C3 on the example log played three times from a target just below a full second. -/
theorem release_targets_nondecreasing_witness :
    normalized ⟨1000, 999999999⟩ ∧ (0 : Int) ≤ 1000 ∧
    (∀ e ∈ example_log, well_formed e ∧ 0 ≤ e.sec ∧ e.sec ≤ ((10 : Nat) : Int)) ∧
    (1000 : Int) + ((3 * example_log.length * (10 + 1 / 1000 + 2) : Nat) : Int) ≤ LONG_MAX ∧
    List.Chain (fun a b => normalized b ∧ ts_le a b) ⟨1000, 999999999⟩
      ((replay ⟨true, 0, 1⟩ (pacer_init ⟨1000, 999999999⟩) example_log 3).map
        (fun r => r.st.target_ts)) ∧
    (replay ⟨true, 0, 1⟩ (pacer_init ⟨1000, 999999999⟩) example_log 3).map (fun r => r.ev)
      = (List.replicate 3 example_log).flatten :=
  ⟨by decide, by decide, by decide, by decide,
    release_targets_nondecreasing ⟨true, 0, 1⟩ ⟨1000, 999999999⟩ example_log 3 10
      (by decide) (by decide) (by decide) (by decide)⟩

/-- C3 as stated fails when the seconds sum overflows: from the normalized target
`(1000, 0)`, on the far log (seconds 0, then `LONG_MAX`, both well-formed) the second
release delta is `LONG_MAX` seconds, the sum at line 110 wraps, and the second target is
earlier than the first. -/
theorem target_overflow_counterexample :
    normalized ⟨1000, 0⟩ ∧ (∀ e ∈ far_log, well_formed e) ∧
    (replay ⟨true, 0, 1⟩ (pacer_init ⟨1000, 0⟩) far_log 1).map (fun r => r.st.target_ts)
      = [⟨1000, 0⟩, ⟨-9223372036854774809, 0⟩] ∧
    ¬ ts_le ⟨1000, 0⟩ ⟨-9223372036854774809, 0⟩ := by
  decide

/-- C1, the code at the example log (timestamp mode, no gap-skip, one pass, start at
`T0 = 1000 s`): the second release target is `T0 + 500000 ns`, not the `T0 + 0.5 s` that
the logged timestamps give. -/
theorem example_log_second_target :
    (replay ⟨true, 0, 1⟩ (pacer_init ⟨1000, 0⟩) example_log 1).map (fun r => r.st.target_ts)
      = [⟨1000, 0⟩, ⟨1000, 500000⟩] ∧
    ts_add ⟨1000, 0⟩ (ts_subtract (logged_ts ⟨10, 500000, "vcan0", "321#33"⟩)
      (logged_ts ⟨10, 0, "vcan0", "123#1122"⟩)) = ⟨1000, 500000000⟩ := by
  decide

/-- C4, the code at the boundary log played twice (timestamp mode, no gap-skip, start at
`T0 = 1000 s`): the first event of the second pass gets the release delta 100000 ns and
its target differs from that of the last event of the first pass. -/
theorem boundary_log_second_pass :
    (replay ⟨true, 0, 1⟩ (pacer_init ⟨1000, 0⟩) boundary_log 2).map
        (fun r => (r.first, r.st.diff_ts, r.st.target_ts))
      = [(true, ⟨0, 0⟩, ⟨1000, 0⟩), (false, ⟨0, 0⟩, ⟨1000, 0⟩),
         (true, ⟨0, 100000⟩, ⟨1000, 100000⟩), (false, ⟨0, 0⟩, ⟨1000, 100000⟩)] := by
  decide

/-! ## Theorems: routing table -/

theorem entry_append (pre rest : List assignment) (i : Nat) :
    entry (pre ++ rest) (pre.length + i) = entry rest i := by
  induction pre with
  | nil => simp
  | cons a pre ih =>
    have : (a :: pre).length + i = (pre.length + i) + 1 := by simp; omega
    rw [this]
    simpa [entry] using ih

theorem entry_at_length (pre rest : List assignment) :
    entry (pre ++ rest) pre.length = entry rest 0 := by
  simpa using entry_append pre rest 0

theorem entry_replicate_zero (k i : Nat) : entry (List.replicate k asgn_zero) i = asgn_zero := by
  unfold entry
  rw [List.getD_eq_getElem?_getD]
  by_cases h : i < k
  · simp [List.getElem?_replicate, h]
  · simp [List.getElem?_replicate, h]

theorem set_at_length (pre : List assignment) (a b : assignment) (rest : List assignment) :
    (pre ++ a :: rest).set pre.length b = pre ++ b :: rest := by
  induction pre with
  | nil => rfl
  | cons x pre ih => simp [ih]

theorem free_scan_table (k : Nat) (es : List assignment) (hes : ∀ a ∈ es, a.txif ≠ "") :
    ∀ (pre : List assignment) (n : Nat), es.length ≤ n →
      free_scan (pre ++ (es ++ List.replicate k asgn_zero)) n pre.length
        = pre.length + es.length := by
  induction es with
  | nil =>
    intro pre n _
    cases n with
    | zero => simp [free_scan]
    | succ n =>
      simp only [free_scan, List.nil_append, entry_at_length, entry_replicate_zero]
      simp [asgn_zero]
  | cons a es ih =>
    intro pre n hn
    cases n with
    | zero => simp at hn
    | succ n =>
      have ha : a.txif ≠ "" := hes a (List.mem_cons_self _ _)
      have hstep := ih (fun x hx => hes x (List.mem_cons_of_mem _ hx)) (pre ++ [a]) n
        (by simpa using hn)
      simp only [List.append_assoc, List.singleton_append, List.length_append,
        List.length_singleton] at hstep
      simp only [free_scan, entry_at_length, List.cons_append]
      have h0 : entry (a :: (es ++ List.replicate k asgn_zero)) 0 = a := rfl
      rw [h0, if_neg ha, hstep]
      simp; omega

theorem free_scan_table_of (es : List assignment) (hes : ∀ a ∈ es, a.txif ≠ "")
    (hlen : es.length ≤ CHANNELS) : free_scan (table_of es) CHANNELS 0 = es.length := by
  have := free_scan_table (CHANNELS - es.length) es hes [] CHANNELS hlen
  simpa [table_of] using this

theorem table_of_lt (es : List assignment) (hlen : es.length < CHANNELS) :
    table_of es = es ++ asgn_zero :: List.replicate (CHANNELS - es.length - 1) asgn_zero := by
  unfold table_of
  have : CHANNELS - es.length = (CHANNELS - es.length - 1) + 1 := by omega
  rw [this, List.replicate_succ]
  simp

theorem table_of_snoc (es : List assignment) (a : assignment) :
    table_of (es ++ [a]) = es ++ a :: List.replicate (CHANNELS - es.length - 1) asgn_zero := by
  unfold table_of
  simp [Nat.sub_sub]

theorem add_assignment_full (ifindex : String → Option Int) (es : List assignment)
    (hes : ∀ a ∈ es, a.txif ≠ "") (hlen : es.length = CHANNELS) (txname rxname : String) :
    add_assignment ifindex (table_of es) txname rxname
      = (AddResult.table_exceeded, table_of es) := by
  unfold add_assignment
  simp only [free_scan_table_of es hes (le_of_eq hlen), hlen, if_true]

theorem add_assignment_free (ifindex : String → Option Int) (es : List assignment)
    (hes : ∀ a ∈ es, a.txif ≠ "") (hlen : es.length < CHANNELS) (txname rxname : String)
    (idx : Int) (htx : txname.length < IFNAMSIZ) (hrx : rxname.length < IFNAMSIZ)
    (hidx : resolve ifindex txname = some idx) :
    add_assignment ifindex (table_of es) txname rxname
      = (AddResult.ok, table_of (es ++ [⟨txname, idx, rxname⟩])) := by
  unfold add_assignment
  simp only [free_scan_table_of es hes (le_of_lt hlen)]
  rw [if_neg (by omega), if_neg (by omega)]
  rw [if_neg (by omega)]
  rw [table_of_lt es hlen, table_of_snoc es _]
  simp only [set_at_length, entry_at_length]
  have h0 : ∀ (a : assignment) (l : List assignment), entry (a :: l) 0 = a := fun _ _ => rfl
  simp only [h0]
  unfold resolve at hidx
  by_cases hs : txname ≠ "stdout"
  · rw [if_pos hs] at hidx
    rw [if_pos hs, hidx]
  · rw [if_neg hs] at hidx
    rw [if_neg hs]
    cases hidx
    simp [asgn_zero]

theorem rx_scan_table (k : Nat) (name : String) (es : List assignment)
    (hes : ∀ a ∈ es, a.rxif ≠ "") :
    ∀ (pre : List assignment) (n : Nat), es.length ≤ n → pre.length + es.length ≤ CHANNELS →
      (if rx_scan (pre ++ (es ++ List.replicate k asgn_zero)) name n pre.length = CHANNELS ∨
          (entry (pre ++ (es ++ List.replicate k asgn_zero))
            (rx_scan (pre ++ (es ++ List.replicate k asgn_zero)) name n pre.length)).rxif = ""
        then 0
        else (entry (pre ++ (es ++ List.replicate k asgn_zero))
            (rx_scan (pre ++ (es ++ List.replicate k asgn_zero)) name n pre.length)).txifidx)
        = lookup es name := by
  induction es with
  | nil =>
    intro pre n _ _
    have hz : (entry (pre ++ ([] ++ List.replicate k asgn_zero)) pre.length).rxif = "" := by
      simp only [List.nil_append, entry_at_length, entry_replicate_zero]
      rfl
    have hscan : rx_scan (pre ++ ([] ++ List.replicate k asgn_zero)) name n pre.length
        = pre.length := by
      cases n with
      | zero => rfl
      | succ n => simp only [rx_scan, hz, if_true]
    rw [hscan, if_pos (Or.inr hz)]
    rfl
  | cons a es ih =>
    intro pre n hn hcap
    cases n with
    | zero => simp at hn
    | succ n =>
      have ha : a.rxif ≠ "" := hes a (List.mem_cons_self _ _)
      have he : entry (pre ++ (a :: es ++ List.replicate k asgn_zero)) pre.length = a := by
        rw [entry_at_length]; rfl
      simp only [List.length_cons] at hn hcap
      by_cases hname : a.rxif = name
      · have hscan : rx_scan (pre ++ (a :: es ++ List.replicate k asgn_zero)) name (n + 1)
            pre.length = pre.length := by
          simp only [rx_scan, he, if_neg ha, if_pos hname]
        rw [hscan, he, if_neg (by
          rintro (h | h)
          · omega
          · exact ha h)]
        simp [lookup, hname]
      · have hscan : rx_scan (pre ++ (a :: es ++ List.replicate k asgn_zero)) name (n + 1)
            pre.length = rx_scan (pre ++ (a :: es ++ List.replicate k asgn_zero)) name n
              (pre.length + 1) := by
          simp only [rx_scan, he, if_neg ha, if_neg hname]
        have hstep := ih (fun x hx => hes x (List.mem_cons_of_mem _ hx)) (pre ++ [a]) n
          (by omega) (by simp; omega)
        simp only [List.append_assoc, List.singleton_append, List.length_append,
          List.length_singleton] at hstep
        rw [hscan]
        simp only [List.cons_append] at hstep ⊢
        rw [hstep]
        simp [lookup, hname]

theorem get_txidx_table_of (es : List assignment) (hes : ∀ a ∈ es, a.rxif ≠ "")
    (hlen : es.length ≤ CHANNELS) (name : String) :
    get_txidx (table_of es) name = lookup es name := by
  have := rx_scan_table (CHANNELS - es.length) name es hes [] CHANNELS hlen (by simpa using hlen)
  simpa [get_txidx, table_of] using this

theorem occupied_table_of (es : List assignment) (hes : ∀ a ∈ es, a.txif ≠ "") :
    occupied (table_of es) = es := by
  unfold occupied table_of
  rw [List.filter_append]
  have h1 : es.filter (fun a => decide (a.txif ≠ "")) = es := by
    rw [List.filter_eq_self]
    intro a ha
    simpa using hes a ha
  have h2 : (List.replicate (CHANNELS - es.length) asgn_zero).filter
      (fun a => decide (a.txif ≠ "")) = [] := by
    rw [List.filter_eq_nil_iff]
    intro a ha
    rw [List.eq_of_mem_replicate ha]
    simp [asgn_zero]
  rw [h1, h2, List.append_nil]

theorem asgn_init_eq : asgn_init = table_of [] := rfl

theorem first_seen_length_le (ds : List String) :
    ∀ seen : List String, seen.length ≤ (first_seen seen ds).length := by
  induction ds with
  | nil => intro seen; exact le_refl _
  | cons d ds ih =>
    intro seen
    unfold first_seen
    split_ifs
    · exact ih seen
    · exact le_trans (by simp) (ih (seen ++ [d]))

theorem first_seen_mem (ds : List String) :
    ∀ (seen : List String) (x : String), x ∈ first_seen seen ds ↔ x ∈ seen ∨ x ∈ ds := by
  induction ds with
  | nil => intro seen x; simp [first_seen]
  | cons d ds ih =>
    intro seen x
    unfold first_seen
    split_ifs with h
    · rw [ih seen x]
      constructor
      · rintro (h1 | h1)
        · exact Or.inl h1
        · exact Or.inr (List.mem_cons_of_mem _ h1)
      · rintro (h1 | h1)
        · exact Or.inl h1
        · rcases List.mem_cons.mp h1 with h2 | h2
          · subst h2; exact Or.inl h
          · exact Or.inr h2
    · rw [ih (seen ++ [d]) x]
      simp only [List.mem_append, List.mem_singleton, List.mem_cons]
      tauto

theorem first_seen_nodup (ds : List String) :
    ∀ seen : List String, seen.Nodup → (first_seen seen ds).Nodup := by
  induction ds with
  | nil => intro seen h; exact h
  | cons d ds ih =>
    intro seen hn
    unfold first_seen
    split_ifs with h
    · exact ih seen hn
    · apply ih
      rw [List.nodup_append]
      refine ⟨hn, List.nodup_singleton d, ?_⟩
      intro x hx hx2
      rw [List.mem_singleton] at hx2
      subst hx2
      exact h hx

theorem first_seen_length (ds : List String) :
    (first_seen [] ds).length = ds.dedup.length := by
  apply List.Perm.length_eq
  rw [List.perm_ext_iff_of_nodup (first_seen_nodup ds [] List.nodup_nil) (List.nodup_dedup ds)]
  intro x
  rw [first_seen_mem, List.mem_dedup]
  simp

theorem lookup_auto (ifindex : String → Option Int) (d : String) (ns : List String) :
    lookup (ns.map (auto_entry ifindex)) d
      = if d ∈ ns then (resolve ifindex d).getD 0 else 0 := by
  induction ns with
  | nil => simp [lookup]
  | cons n ns ih =>
    simp only [List.map_cons, lookup, auto_entry, List.mem_cons]
    by_cases h : n = d
    · subst h; simp
    · rw [if_neg h, ih]
      have h2 : ¬ d = n := fun e => h e.symm
      simp [h2]

theorem auto_entries_txif (ifindex : String → Option Int) (ns : List String)
    (h : ∀ n ∈ ns, n ≠ "") : ∀ a ∈ ns.map (auto_entry ifindex), a.txif ≠ "" := by
  intro a ha
  obtain ⟨n, hn, rfl⟩ := List.mem_map.mp ha
  exact h n hn

theorem auto_entries_rxif (ifindex : String → Option Int) (ns : List String)
    (h : ∀ n ∈ ns, n ≠ "") : ∀ a ∈ ns.map (auto_entry ifindex), a.rxif ≠ "" := by
  intro a ha
  obtain ⟨n, hn, rfl⟩ := List.mem_map.mp ha
  exact h n hn

theorem get_txidx_auto (ifindex : String → Option Int) (ns : List String)
    (h : ∀ n ∈ ns, n ≠ "") (hlen : ns.length ≤ CHANNELS) (d : String) :
    get_txidx (table_of (ns.map (auto_entry ifindex))) d
      = if d ∈ ns then (resolve ifindex d).getD 0 else 0 := by
  rw [get_txidx_table_of _ (auto_entries_rxif ifindex ns h) (by simpa using hlen), lookup_auto]

theorem route_auto_seen (ifindex : String → Option Int) (ns : List String)
    (h : ∀ n ∈ ns, n ≠ "") (hlen : ns.length ≤ CHANNELS) (d : String)
    (hd : good_device ifindex d) (hmem : d ∈ ns) :
    route ifindex 0 (table_of (ns.map (auto_entry ifindex))) d
      = ⟨table_of (ns.map (auto_entry ifindex)), (resolve ifindex d).getD 0, none⟩ := by
  obtain ⟨_, hl, idx, hidx, hne⟩ := hd
  unfold route
  rw [if_neg (by omega)]
  simp only [get_txidx_auto ifindex ns h hlen d, if_pos hmem, hidx, Option.getD_some]
  rw [if_neg (by simp [hne])]

theorem route_auto_new (ifindex : String → Option Int) (ns : List String)
    (h : ∀ n ∈ ns, n ≠ "") (hlen : ns.length < CHANNELS) (d : String)
    (hd : good_device ifindex d) (hmem : d ∉ ns) :
    route ifindex 0 (table_of (ns.map (auto_entry ifindex))) d
      = ⟨table_of ((ns ++ [d]).map (auto_entry ifindex)), (resolve ifindex d).getD 0, none⟩ := by
  obtain ⟨hd0, hl, idx, hidx, hne⟩ := hd
  have hadd := add_assignment_free ifindex (ns.map (auto_entry ifindex))
    (auto_entries_txif ifindex ns h) (by simpa using hlen) d d idx hl hl hidx
  have hns : ∀ n ∈ ns ++ [d], n ≠ "" := by
    intro n hn
    rcases List.mem_append.mp hn with h1 | h1
    · exact h n h1
    · rw [List.mem_singleton] at h1; rw [h1]; exact hd0
  have htab : table_of (ns.map (auto_entry ifindex) ++ [⟨d, idx, d⟩])
      = table_of ((ns ++ [d]).map (auto_entry ifindex)) := by
    simp [auto_entry, hidx]
  unfold route
  rw [if_neg (by omega)]
  simp only [get_txidx_auto ifindex ns h (le_of_lt hlen) d, if_neg hmem, hadd, htab]
  rw [if_pos ⟨trivial, trivial⟩, if_pos trivial,
    get_txidx_auto ifindex (ns ++ [d]) hns (by simp; omega) d]
  simp

theorem route_auto_full (ifindex : String → Option Int) (ns : List String)
    (h : ∀ n ∈ ns, n ≠ "") (hlen : ns.length = CHANNELS) (d : String)
    (hl : d.length < IFNAMSIZ) (hmem : d ∉ ns) :
    route ifindex 0 (table_of (ns.map (auto_entry ifindex))) d
      = ⟨table_of (ns.map (auto_entry ifindex)), 0,
          some (Fatal.add_failed AddResult.table_exceeded)⟩ := by
  have hadd := add_assignment_full ifindex (ns.map (auto_entry ifindex))
    (auto_entries_txif ifindex ns h) (by simpa using hlen) d d
  unfold route
  rw [if_neg (by omega)]
  simp only [get_txidx_auto ifindex ns h (le_of_eq hlen) d, if_neg hmem, hadd]
  rw [if_pos ⟨trivial, trivial⟩, if_neg (by decide)]

theorem route_all_auto (ifindex : String → Option Int) (ds : List String)
    (hds : ∀ d ∈ ds, good_device ifindex d) :
    ∀ ns : List String, (∀ n ∈ ns, n ≠ "") → (first_seen ns ds).length ≤ CHANNELS →
      route_all ifindex 0 (table_of (ns.map (auto_entry ifindex))) ds
        = (table_of ((first_seen ns ds).map (auto_entry ifindex)), none) := by
  induction ds with
  | nil => intro ns _ _; rfl
  | cons d ds ih =>
    intro ns hns hcap
    have hd : good_device ifindex d := hds d (List.mem_cons_self _ _)
    have hds2 : ∀ x ∈ ds, good_device ifindex x := fun x hx => hds x (List.mem_cons_of_mem _ hx)
    unfold first_seen at hcap ⊢
    by_cases hmem : d ∈ ns
    · rw [if_pos hmem] at hcap ⊢
      have hlen : ns.length ≤ CHANNELS := le_trans (first_seen_length_le ds ns) hcap
      simp only [route_all, route_auto_seen ifindex ns hns hlen d hd hmem]
      exact ih hds2 ns hns hcap
    · rw [if_neg hmem] at hcap ⊢
      have hlen : ns.length < CHANNELS := by
        have := le_trans (first_seen_length_le ds (ns ++ [d])) hcap
        simp at this
        omega
      have hns2 : ∀ n ∈ ns ++ [d], n ≠ "" := by
        intro n hn
        rcases List.mem_append.mp hn with h1 | h1
        · exact hns n h1
        · rw [List.mem_singleton] at h1; rw [h1]; exact hd.1
      simp only [route_all, route_auto_new ifindex ns hns hlen d hd hmem]
      exact ih hds2 (ns ++ [d]) hns2 hcap

/-- C5 (amended): in auto mode, for every sequence of events whose interface names are
non-empty, shorter than `IFNAMSIZ` and resolve to a non-zero index, and which has at most
`CHANNELS` distinct names, no event is fatal and the table holds exactly one entry per
distinct name, in first-seen order, with write and log interface both equal to the name;
so the number of occupied entries is the number of distinct names.  A further event with
a name already seen is found by `get_txidx` and leaves the table as it is; one with an
unseen name (while fewer than `CHANNELS` are taken) is not found and appends its entry. -/
theorem auto_assignment_table (ifindex : String → Option Int) (devices : List String)
    (hdev : ∀ d ∈ devices, good_device ifindex d)
    (hcap : devices.dedup.length ≤ CHANNELS) :
    route_all ifindex 0 asgn_init devices
      = (table_of ((first_seen [] devices).map
          (fun d => (⟨d, (resolve ifindex d).getD 0, d⟩ : assignment))), none) ∧
    (occupied (route_all ifindex 0 asgn_init devices).1).length = devices.dedup.length ∧
    ∀ d, good_device ifindex d →
      (d ∈ devices →
        get_txidx (route_all ifindex 0 asgn_init devices).1 d ≠ 0 ∧
        route ifindex 0 (route_all ifindex 0 asgn_init devices).1 d
          = ⟨(route_all ifindex 0 asgn_init devices).1,
              get_txidx (route_all ifindex 0 asgn_init devices).1 d, none⟩) ∧
      (d ∉ devices → devices.dedup.length < CHANNELS →
        get_txidx (route_all ifindex 0 asgn_init devices).1 d = 0 ∧
        (route ifindex 0 (route_all ifindex 0 asgn_init devices).1 d).fatal = none ∧
        occupied (route ifindex 0 (route_all ifindex 0 asgn_init devices).1 d).asgn
          = occupied (route_all ifindex 0 asgn_init devices).1 ++
              [⟨d, (resolve ifindex d).getD 0, d⟩]) := by
  have hfs : (first_seen [] devices).length ≤ CHANNELS := by
    rw [first_seen_length]; exact hcap
  have hne : ∀ n ∈ first_seen [] devices, n ≠ "" := by
    intro n hn
    rcases (first_seen_mem devices [] n).mp hn with h | h
    · simp at h
    · exact (hdev n h).1
  have hrun := route_all_auto ifindex devices hdev [] (by simp) hfs
  have hrun2 : route_all ifindex 0 asgn_init devices
      = (table_of ((first_seen [] devices).map (auto_entry ifindex)), none) := hrun
  have hocc : ∀ ns : List String, (∀ n ∈ ns, n ≠ "") →
      occupied (table_of (ns.map (auto_entry ifindex))) = ns.map (auto_entry ifindex) :=
    fun ns h => occupied_table_of _ (auto_entries_txif ifindex ns h)
  refine ⟨hrun2, ?_, ?_⟩
  · rw [hrun2]
    simp only []
    rw [hocc _ hne, List.length_map, first_seen_length]
  · intro d hd
    rw [hrun2]
    simp only []
    have hmem : d ∈ first_seen [] devices ↔ d ∈ devices := by
      rw [first_seen_mem]; simp
    constructor
    · intro hin
      have hr := route_auto_seen ifindex _ hne hfs d hd (hmem.mpr hin)
      have hg := get_txidx_auto ifindex _ hne hfs d
      rw [if_pos (hmem.mpr hin)] at hg
      obtain ⟨_, _, idx, hidx, hnz⟩ := hd
      refine ⟨?_, ?_⟩
      · rw [hg, hidx]; exact hnz
      · rw [hr, hg]
    · intro hnin hlt
      have hlt2 : (first_seen [] devices).length < CHANNELS := by
        rw [first_seen_length]; exact hlt
      have hnin2 : d ∉ first_seen [] devices := fun h => hnin (hmem.mp h)
      have hr := route_auto_new ifindex _ hne hlt2 d hd hnin2
      have hg := get_txidx_auto ifindex _ hne hfs d
      rw [if_neg hnin2] at hg
      have hne2 : ∀ n ∈ first_seen [] devices ++ [d], n ≠ "" := by
        intro n hn
        rcases List.mem_append.mp hn with h1 | h1
        · exact hne n h1
        · rw [List.mem_singleton] at h1; rw [h1]; exact hd.1
      refine ⟨hg, ?_, ?_⟩
      · rw [hr]
      · rw [hr]
        simp only []
        rw [hocc _ hne2, hocc _ hne]
        simp [auto_entry]

/-- C5 on three events from two interfaces. -/
theorem auto_assignment_table_witness :
    (∀ d ∈ ["can0", "can1", "can0"], good_device ifindex_many d) ∧
    ["can0", "can1", "can0"].dedup.length ≤ CHANNELS ∧
    route_all ifindex_many 0 asgn_init ["can0", "can1", "can0"]
      = (table_of ((first_seen [] ["can0", "can1", "can0"]).map
          (fun d => (⟨d, (resolve ifindex_many d).getD 0, d⟩ : assignment))), none) :=
  ⟨by decide, by decide,
    (auto_assignment_table ifindex_many ["can0", "can1", "can0"] (by decide) (by decide)).1⟩

/-- C5 as stated fails at twenty-one distinct names: each is non-empty, shorter than
`IFNAMSIZ` and resolves to a non-zero index, yet the event with the twenty-first name is
fatal (table exceeded) and the table holds twenty entries for twenty-one names seen. -/
theorem auto_assignment_capacity_counterexample :
    (∀ d ∈ many_names, good_device ifindex_many d) ∧
    many_names.dedup.length = 21 ∧
    (route_all ifindex_many 0 asgn_init many_names).2
      = some (Fatal.add_failed AddResult.table_exceeded) ∧
    (occupied (route_all ifindex_many 0 asgn_init many_names).1).length = 20 := by
  decide

theorem add_assignment_ok_inv (ifindex : String → Option Int) (es : List assignment)
    (hes : ∀ a ∈ es, a.txif ≠ "") (hlen : es.length ≤ CHANNELS) (txname rxname : String)
    (hok : (add_assignment ifindex (table_of es) txname rxname).1 = AddResult.ok) :
    es.length < CHANNELS ∧ txname.length < IFNAMSIZ ∧ rxname.length < IFNAMSIZ ∧
      ∃ idx, resolve ifindex txname = some idx := by
  unfold add_assignment at hok
  simp only [free_scan_table_of es hes hlen] at hok
  by_cases h1 : es.length = CHANNELS
  · rw [if_pos h1] at hok; cases hok
  · rw [if_neg h1] at hok
    by_cases h2 : txname.length ≥ IFNAMSIZ
    · rw [if_pos h2] at hok; cases hok
    · rw [if_neg h2] at hok
      by_cases h3 : rxname.length ≥ IFNAMSIZ
      · rw [if_pos h3] at hok; cases hok
      · rw [if_neg h3] at hok
        refine ⟨by omega, by omega, by omega, ?_⟩
        unfold resolve
        by_cases h4 : txname ≠ "stdout"
        · rw [if_pos h4] at hok ⊢
          cases h5 : ifindex txname with
          | none => rw [h5] at hok; cases hok
          | some idx => exact ⟨idx, rfl⟩
        · rw [if_neg h4]
          exact ⟨STDOUTIDX, rfl⟩

theorem add_user_entries (ifindex : String → Option Int) (calls : List (String × String))
    (hcalls : ∀ c ∈ calls, c.1 ≠ "") :
    ∀ es : List assignment, (∀ a ∈ es, a.txif ≠ "") → es.length ≤ CHANNELS →
      (add_user ifindex (table_of es) calls).1 = AddResult.ok →
      (occupied (add_user ifindex (table_of es) calls).2).map (fun a => a.rxif)
        = es.map (fun a => a.rxif) ++ calls.map Prod.snd := by
  induction calls with
  | nil =>
    intro es hes _ _
    simp [add_user, occupied_table_of es hes]
  | cons c cs ih =>
    intro es hes hlen hok
    unfold add_user at hok ⊢
    by_cases h : (add_assignment ifindex (table_of es) c.1 c.2).1 = AddResult.ok
    · rw [if_pos h] at hok ⊢
      obtain ⟨h1, h2, h3, idx, h4⟩ := add_assignment_ok_inv ifindex es hes hlen c.1 c.2 h
      have hadd := add_assignment_free ifindex es hes h1 c.1 c.2 idx h2 h3 h4
      rw [hadd] at hok ⊢
      have hes2 : ∀ a ∈ es ++ [(⟨c.1, idx, c.2⟩ : assignment)], a.txif ≠ "" := by
        intro a ha
        rcases List.mem_append.mp ha with h5 | h5
        · exact hes a h5
        · rw [List.mem_singleton] at h5
          rw [h5]
          exact hcalls c (List.mem_cons_self _ _)
      have := ih (fun x hx => hcalls x (List.mem_cons_of_mem _ hx)) _ hes2
        (by simp; omega) hok
      rw [this]
      simp
    · rw [if_neg h] at hok
      exact absurd hok h

theorem route_all_auto_shape (ifindex : String → Option Int) (ds : List String)
    (hds : ∀ d ∈ ds, good_device ifindex d) :
    ∀ ns : List String, (∀ n ∈ ns, n ≠ "") → ns.Nodup → ns.length ≤ CHANNELS →
      ∃ ns2 : List String, (∀ n ∈ ns2, n ≠ "") ∧ ns2.Nodup ∧
        (route_all ifindex 0 (table_of (ns.map (auto_entry ifindex))) ds).1
          = table_of (ns2.map (auto_entry ifindex)) := by
  induction ds with
  | nil => intro ns h1 h2 _; exact ⟨ns, h1, h2, rfl⟩
  | cons d ds ih =>
    intro ns hns hnd hlen
    have hd : good_device ifindex d := hds d (List.mem_cons_self _ _)
    have hds2 : ∀ x ∈ ds, good_device ifindex x := fun x hx => hds x (List.mem_cons_of_mem _ hx)
    by_cases hmem : d ∈ ns
    · simp only [route_all, route_auto_seen ifindex ns hns hlen d hd hmem]
      exact ih hds2 ns hns hnd hlen
    · by_cases hfull : ns.length = CHANNELS
      · simp only [route_all, route_auto_full ifindex ns hns hfull d hd.2.1 hmem]
        exact ⟨ns, hns, hnd, rfl⟩
      · have hlt : ns.length < CHANNELS := by omega
        simp only [route_all, route_auto_new ifindex ns hns hlt d hd hmem]
        refine ih hds2 (ns ++ [d]) ?_ ?_ (by simp; omega)
        · intro n hn
          rcases List.mem_append.mp hn with h1 | h1
          · exact hns n h1
          · rw [List.mem_singleton] at h1; rw [h1]; exact hd.1
        · rw [List.nodup_append]
          refine ⟨hnd, List.nodup_singleton d, ?_⟩
          intro x hx hx2
          rw [List.mem_singleton] at hx2
          subst hx2
          exact hmem hx

/-- C7 (amended): `add_assignment` checks no duplicates, so after a sequence of successful
calls from the empty table (write interfaces non-empty) the occupied entries carry exactly
the log-interface names passed, in call order: they are pairwise distinct exactly when the
command line named no log interface twice.  In auto mode, where a name is added only after
`get_txidx` did not find it, no two occupied entries ever share a log-interface name. -/
theorem table_keys (ifindex : String → Option Int) :
    (∀ calls : List (String × String), (∀ c ∈ calls, c.1 ≠ "") →
      (add_user ifindex asgn_init calls).1 = AddResult.ok →
      (occupied (add_user ifindex asgn_init calls).2).map (fun a => a.rxif)
        = calls.map Prod.snd) ∧
    (∀ devices : List String, (∀ d ∈ devices, good_device ifindex d) →
      ((occupied (route_all ifindex 0 asgn_init devices).1).map (fun a => a.rxif)).Nodup) := by
  constructor
  · intro calls hcalls hok
    have := add_user_entries ifindex calls hcalls [] (by simp) (by simp) hok
    simpa using this
  · intro devices hdev
    obtain ⟨ns, hne, hnd, htab⟩ :=
      route_all_auto_shape ifindex devices hdev [] (by simp) List.nodup_nil (by simp)
    have htab2 : (route_all ifindex 0 asgn_init devices).1
        = table_of (ns.map (auto_entry ifindex)) := htab
    rw [htab2, occupied_table_of _ (auto_entries_txif ifindex ns hne), List.map_map]
    have : ((fun a : assignment => a.rxif) ∘ auto_entry ifindex) = id := by
      funext x; rfl
    rw [this, List.map_id]
    exact hnd

/-- C7 on two command-line assignments with different log interfaces and on three events
from two interfaces. -/
theorem table_keys_witness :
    ((∀ c ∈ [("vcan0", "can0"), ("vcan1", "can1")], c.1 ≠ "") ∧
      (add_user ifindex_demo asgn_init [("vcan0", "can0"), ("vcan1", "can1")]).1 = AddResult.ok ∧
      (occupied (add_user ifindex_demo asgn_init [("vcan0", "can0"), ("vcan1", "can1")]).2).map
          (fun a => a.rxif) = ["can0", "can1"]) ∧
    ((∀ d ∈ ["can0", "can1", "can0"], good_device ifindex_many d) ∧
      ((occupied (route_all ifindex_many 0 asgn_init ["can0", "can1", "can0"]).1).map
          (fun a => a.rxif)).Nodup) :=
  ⟨⟨by decide, by decide,
      (table_keys ifindex_demo).1 [("vcan0", "can0"), ("vcan1", "can1")] (by decide) (by decide)⟩,
    ⟨by decide, (table_keys ifindex_many).2 ["can0", "can1", "can0"] (by decide)⟩⟩

/-- C7 as stated fails in user mode: the command line `vcan0=can0 vcan1=can0` gives two
successful `add_assignment` calls and two occupied entries with log interface `can0`. -/
theorem duplicate_keys_counterexample :
    (add_user ifindex_demo asgn_init [("vcan0", "can0"), ("vcan1", "can0")]).1 = AddResult.ok ∧
    (occupied (add_user ifindex_demo asgn_init [("vcan0", "can0"), ("vcan1", "can0")]).2)
      = [⟨"vcan0", 3, "can0"⟩, ⟨"vcan1", 4, "can0"⟩] ∧
    ¬ ((occupied (add_user ifindex_demo asgn_init [("vcan0", "can0"), ("vcan1", "can0")]).2).map
        (fun a => a.rxif)).Nodup := by
  decide

theorem add_seq_shape (ifindex : String → Option Int) (calls : List (String × String))
    (hcalls : ∀ c ∈ calls, good_call ifindex c) :
    ∀ es : List assignment, (∀ a ∈ es, a.txif ≠ "") → es.length ≤ CHANNELS →
      ∃ es2 : List assignment, (∀ a ∈ es2, a.txif ≠ "") ∧
        es2.length = min (es.length + calls.length) CHANNELS ∧
        add_seq ifindex (table_of es) calls = table_of es2 := by
  induction calls with
  | nil =>
    intro es hes hlen
    exact ⟨es, hes, by simp [hlen], rfl⟩
  | cons c cs ih =>
    intro es hes hlen
    obtain ⟨c1, _, c3, c4, idx, c5⟩ := hcalls c (List.mem_cons_self _ _)
    have hcs : ∀ x ∈ cs, good_call ifindex x := fun x hx => hcalls x (List.mem_cons_of_mem _ hx)
    by_cases hfull : es.length = CHANNELS
    · obtain ⟨es2, h1, h2, h3⟩ := ih hcs es hes hlen
      refine ⟨es2, h1, ?_, ?_⟩
      · rw [h2]; simp; omega
      · simp only [add_seq, add_assignment_full ifindex es hes hfull]
        exact h3
    · have hlt : es.length < CHANNELS := by omega
      have hes2 : ∀ a ∈ es ++ [(⟨c.1, idx, c.2⟩ : assignment)], a.txif ≠ "" := by
        intro a ha
        rcases List.mem_append.mp ha with h5 | h5
        · exact hes a h5
        · rw [List.mem_singleton] at h5; rw [h5]; exact c1
      obtain ⟨es2, h1, h2, h3⟩ := ih hcs _ hes2 (by simp; omega)
      refine ⟨es2, h1, ?_, ?_⟩
      · rw [h2]; simp; omega
      · simp only [add_seq, add_assignment_free ifindex es hes hlt c.1 c.2 idx c3 c4 c5]
        exact h3

/-- C8: starting from the empty table, after any sequence of `add_assignment` calls with
non-empty, resolvable names shorter than `IFNAMSIZ`, `min (number of calls) CHANNELS`
entries are occupied, and a further such call fails with the table-full error if and only
if `CHANNELS = 20` entries are occupied; the failing call leaves the table unchanged, any
other call succeeds and occupies one more entry.  With a full table an event of auto mode
whose name is not found is fatal. -/
theorem table_capacity (ifindex : String → Option Int) (calls : List (String × String))
    (c : String × String)
    (hcalls : ∀ x ∈ calls, good_call ifindex x) (hc : good_call ifindex c) :
    CHANNELS = 20 ∧
    (occupied (add_seq ifindex asgn_init calls)).length = min calls.length CHANNELS ∧
    ((add_assignment ifindex (add_seq ifindex asgn_init calls) c.1 c.2).1
        = AddResult.table_exceeded ↔
      (occupied (add_seq ifindex asgn_init calls)).length = CHANNELS) ∧
    ((occupied (add_seq ifindex asgn_init calls)).length = CHANNELS →
      add_assignment ifindex (add_seq ifindex asgn_init calls) c.1 c.2
        = (AddResult.table_exceeded, add_seq ifindex asgn_init calls)) ∧
    ((occupied (add_seq ifindex asgn_init calls)).length < CHANNELS →
      (add_assignment ifindex (add_seq ifindex asgn_init calls) c.1 c.2).1 = AddResult.ok ∧
      (occupied (add_assignment ifindex (add_seq ifindex asgn_init calls) c.1 c.2).2).length
        = (occupied (add_seq ifindex asgn_init calls)).length + 1) ∧
    ((occupied (add_seq ifindex asgn_init calls)).length = CHANNELS →
      ∀ d : String, d.length < IFNAMSIZ → get_txidx (add_seq ifindex asgn_init calls) d = 0 →
        route ifindex 0 (add_seq ifindex asgn_init calls) d
          = ⟨add_seq ifindex asgn_init calls, 0,
              some (Fatal.add_failed AddResult.table_exceeded)⟩) := by
  obtain ⟨es, hes, hlen, htab⟩ := add_seq_shape ifindex calls hcalls [] (by simp) (by simp)
  have htab2 : add_seq ifindex asgn_init calls = table_of es := htab
  have hle : es.length ≤ CHANNELS := by rw [hlen]; exact min_le_right _ _
  obtain ⟨c1, _, c3, c4, idx, c5⟩ := hc
  rw [htab2, occupied_table_of es hes]
  have hfull : es.length = CHANNELS →
      add_assignment ifindex (table_of es) c.1 c.2 = (AddResult.table_exceeded, table_of es) :=
    fun h => add_assignment_full ifindex es hes h c.1 c.2
  have hfree : es.length < CHANNELS →
      add_assignment ifindex (table_of es) c.1 c.2
        = (AddResult.ok, table_of (es ++ [⟨c.1, idx, c.2⟩])) :=
    fun h => add_assignment_free ifindex es hes h c.1 c.2 idx c3 c4 c5
  refine ⟨rfl, by simpa using hlen, ?_, hfull, ?_, ?_⟩
  · constructor
    · intro h
      by_contra hne
      rw [hfree (by omega)] at h
      cases h
    · intro h
      rw [hfull h]
  · intro h
    rw [hfree h]
    refine ⟨rfl, ?_⟩
    have hes2 : ∀ a ∈ es ++ [(⟨c.1, idx, c.2⟩ : assignment)], a.txif ≠ "" := by
      intro a ha
      rcases List.mem_append.mp ha with h5 | h5
      · exact hes a h5
      · rw [List.mem_singleton] at h5; rw [h5]; exact c1
    simp only []
    rw [occupied_table_of _ hes2]
    simp
  · intro h d hd hg
    unfold route
    rw [if_neg (by omega)]
    simp only [hg, add_assignment_full ifindex es hes h d d]
    rw [if_pos ⟨trivial, trivial⟩, if_neg (by decide)]

/-- C8 on twenty accepted calls followed by a twenty-first. -/
theorem table_capacity_witness :
    (∀ x ∈ List.replicate 20 ("vcan0", "can0"), good_call ifindex_demo x) ∧
    good_call ifindex_demo ("vcan1", "can0") ∧
    (occupied (add_seq ifindex_demo asgn_init (List.replicate 20 ("vcan0", "can0")))).length
      = CHANNELS ∧
    add_assignment ifindex_demo (add_seq ifindex_demo asgn_init
        (List.replicate 20 ("vcan0", "can0"))) "vcan1" "can0"
      = (AddResult.table_exceeded,
          add_seq ifindex_demo asgn_init (List.replicate 20 ("vcan0", "can0"))) :=
  ⟨by decide, by decide, by decide,
    (table_capacity ifindex_demo (List.replicate 20 ("vcan0", "can0")) ("vcan1", "can0")
      (by decide) (by decide)).2.2.2.1 (by decide)⟩

theorem rx_scan_stop (asgn : List assignment) (name : String) :
    ∀ n i : Nat, rx_scan asgn name n i = i + n ∨
      (rx_scan asgn name n i < i + n ∧
        ((entry asgn (rx_scan asgn name n i)).rxif = "" ∨
          (entry asgn (rx_scan asgn name n i)).rxif = name)) := by
  intro n
  induction n with
  | zero => intro i; left; rfl
  | succ n ih =>
    intro i
    unfold rx_scan
    by_cases h1 : (entry asgn i).rxif = ""
    · rw [if_pos h1]; right; exact ⟨by omega, Or.inl h1⟩
    · rw [if_neg h1]
      by_cases h2 : (entry asgn i).rxif = name
      · rw [if_pos h2]; right; exact ⟨by omega, Or.inr h2⟩
      · rw [if_neg h2]
        rcases ih (i + 1) with h | ⟨h, h3⟩
        · left; omega
        · right; exact ⟨by omega, h3⟩

theorem get_txidx_not_found (asgn : List assignment) (name : String)
    (h : ∀ i < CHANNELS, (entry asgn i).rxif ≠ name) : get_txidx asgn name = 0 := by
  unfold get_txidx
  simp only []
  rcases rx_scan_stop asgn name CHANNELS 0 with h1 | ⟨h1, h2 | h2⟩
  · rw [if_pos (Or.inl (by omega))]
  · rw [if_pos (Or.inr h2)]
  · exact absurd h2 (h _ (by omega))

/-- C6 (amended): with at least one assignment on the command line, every event whose
interface name is shorter than `IFNAMSIZ` and is the log interface of no table entry is
dropped: `get_txidx` returns 0, the table is unchanged (nothing is added), nothing is
printed, decoded or sent, and there is no fatal error.  Every event whose interface name
has `IFNAMSIZ` or more characters is fatal (name too long), with the table unchanged and
nothing printed, decoded or sent. -/
theorem unassigned_source_dropped {Frame : Type} (ifindex : String → Option Int)
    (env : Env Frame) (assignments verbose : Nat) (diff_ts : timespec)
    (asgn : List assignment) (buf device ascframe : String)
    (hassign : assignments ≠ 0) :
    (device.length < IFNAMSIZ → (∀ i < CHANNELS, (entry asgn i).rxif ≠ device) →
      get_txidx asgn device = 0 ∧
      handle_event ifindex env assignments verbose diff_ts asgn buf device ascframe
        = ⟨asgn, [], none⟩) ∧
    (IFNAMSIZ ≤ device.length →
      handle_event ifindex env assignments verbose diff_ts asgn buf device ascframe
        = ⟨asgn, [], some Fatal.name_too_long⟩) := by
  constructor
  · intro hlen hnot
    have hg := get_txidx_not_found asgn device hnot
    refine ⟨hg, ?_⟩
    have hr : route ifindex assignments asgn device = ⟨asgn, 0, none⟩ := by
      unfold route
      rw [if_neg (by omega)]
      simp only [hg]
      rw [if_neg (fun h => hassign h.2)]
    have ha : @auto_output Frame ifindex assignments verbose asgn device = [] := by
      unfold auto_output
      rw [if_neg (fun h => hassign h.2.2)]
    unfold handle_event
    rw [hr]
    simp only [dispatch, ha, List.nil_append]
    rw [if_neg (by decide), if_neg (by decide)]
  · intro hlong
    have hr : route ifindex assignments asgn device = ⟨asgn, 0, some Fatal.name_too_long⟩ := by
      unfold route
      rw [if_pos hlong]
    unfold handle_event
    rw [hr]

/-- C6 on the command line `vcan0=can0`: an event logged from `can1` is dropped, an event
logged from `averyveryverylongname` is fatal. -/
theorem unassigned_source_dropped_witness :
    (1 : Nat) ≠ 0 ∧ "can1".length < IFNAMSIZ ∧
    (∀ i < CHANNELS,
      (entry (add_user ifindex_demo asgn_init [("vcan0", "can0")]).2 i).rxif ≠ "can1") ∧
    (get_txidx (add_user ifindex_demo asgn_init [("vcan0", "can0")]).2 "can1" = 0 ∧
      handle_event ifindex_demo env_reject 1 0 ⟨0, 0⟩
          (add_user ifindex_demo asgn_init [("vcan0", "can0")]).2
          "(1.000000) can1 123#11\n" "can1" "123#11"
        = ⟨(add_user ifindex_demo asgn_init [("vcan0", "can0")]).2, [], none⟩) ∧
    IFNAMSIZ ≤ "averyveryverylongname".length ∧
    handle_event ifindex_demo env_reject 1 0 ⟨0, 0⟩
        (add_user ifindex_demo asgn_init [("vcan0", "can0")]).2
        "(1.000000) averyveryverylongname 123#11\n" "averyveryverylongname" "123#11"
      = ⟨(add_user ifindex_demo asgn_init [("vcan0", "can0")]).2, [],
          some Fatal.name_too_long⟩ :=
  ⟨by decide, by decide, by decide,
    (unassigned_source_dropped ifindex_demo env_reject 1 0 ⟨0, 0⟩
      (add_user ifindex_demo asgn_init [("vcan0", "can0")]).2
      "(1.000000) can1 123#11\n" "can1" "123#11" (by decide)).1 (by decide) (by decide),
    by decide,
    (unassigned_source_dropped ifindex_demo env_reject 1 0 ⟨0, 0⟩
      (add_user ifindex_demo asgn_init [("vcan0", "can0")]).2
      "(1.000000) averyveryverylongname 123#11\n" "averyveryverylongname" "123#11"
      (by decide)).2 (by decide)⟩

/-- C6 as stated fails for a name of `IFNAMSIZ` or more characters: with the command line
`vcan0=can0`, an event logged from `averyveryverylongname` (the log interface of no table
entry) is fatal instead of being dropped. -/
theorem long_unassigned_source_counterexample :
    (∀ i < CHANNELS, (entry (add_user ifindex_demo asgn_init [("vcan0", "can0")]).2 i).rxif
      ≠ "averyveryverylongname") ∧
    handle_event ifindex_demo env_reject 1 0 ⟨0, 0⟩
        (add_user ifindex_demo asgn_init [("vcan0", "can0")]).2
        "(1.000000) averyveryverylongname 123#11\n" "averyveryverylongname" "123#11"
      = ⟨(add_user ifindex_demo asgn_init [("vcan0", "can0")]).2, [],
          some Fatal.name_too_long⟩ := by
  decide

/-! ## Theorems: log reader -/

theorem fgets_chars_line (rest : List Char) :
    ∀ (k : Nat) (body : List Char), (∀ c ∈ body, c ≠ '\n') →
      fgets_chars k (body ++ '\n' :: rest)
        = if body.length < k then (body ++ ['\n'], rest)
          else (body.take k, body.drop k ++ '\n' :: rest) := by
  intro k
  induction k with
  | zero => intro body _; simp [fgets_chars]
  | succ k ih =>
    intro body hb
    cases body with
    | nil => simp [fgets_chars]
    | cons c body =>
      have hc : c ≠ '\n' := hb c (List.mem_cons_self _ _)
      have hb2 : ∀ x ∈ body, x ≠ '\n' := fun x hx => hb x (List.mem_cons_of_mem _ hx)
      have hih := ih body hb2
      simp only [List.cons_append, fgets_chars, if_neg hc, List.length_cons,
        Nat.add_lt_add_iff_right, List.append_eq]
      rw [hih]
      split_ifs <;> simp

theorem fgets_chars_length (k : Nat) :
    ∀ s : List Char, (fgets_chars k s).1.length + (fgets_chars k s).2.length = s.length := by
  induction k with
  | zero => intro s; simp [fgets_chars]
  | succ k ih =>
    intro s
    cases s with
    | nil => simp [fgets_chars]
    | cons c s =>
      simp only [fgets_chars]
      split_ifs
      · simp; omega
      · have := ih s
        simp only [List.length_cons]
        omega

theorem fgets_chars_progress (k : Nat) (c : Char) (s : List Char) :
    (fgets_chars (k + 1) (c :: s)).2.length < (c :: s).length := by
  simp only [fgets_chars]
  split_ifs
  · simp
  · have := fgets_chars_length k s
    simp only [List.length_cons]
    omega

theorem read_loop_total (bufsz : Nat) (hb : 3 ≤ bufsz) :
    ∀ (fuel : Nat) (stream : List Char), stream.length < fuel →
      ∃ r, read_loop bufsz fuel stream = some r := by
  intro fuel
  induction fuel with
  | zero => intro stream h; omega
  | succ fuel ih =>
    intro stream hlen
    cases stream with
    | nil => exact ⟨ReadResult.eof, rfl⟩
    | cons c s =>
      have hk : bufsz - 1 - 1 = (bufsz - 3) + 1 := by omega
      simp only [read_loop, fgets, hk]
      split_ifs
      · exact ⟨_, rfl⟩
      · exact ⟨_, rfl⟩
      · apply ih
        have := fgets_chars_progress (bufsz - 3) c s
        simp only [List.length_cons] at this hlen
        omega

theorem fgets_line (k : Nat) (body rest : List Char) (hb : ∀ c ∈ body, c ≠ '\n') :
    fgets (k + 1) (body ++ '\n' :: rest)
      = some ((body ++ ['\n']).take k, (body ++ ['\n']).drop k ++ rest) := by
  have h1 : fgets (k + 1) (body ++ '\n' :: rest)
      = some (fgets_chars k (body ++ '\n' :: rest)) := by
    cases body with
    | nil => rfl
    | cons c body => rfl
  rw [h1, fgets_chars_line rest k body hb]
  by_cases h : body.length < k
  · rw [if_pos h, List.take_of_length_le (by simp; omega),
      List.drop_of_length_le (by simp; omega)]
    simp
  · rw [if_neg h, List.take_append_of_le_length (by omega),
      List.drop_append_of_le_length (by omega)]
    simp

theorem read_loop_event_line (bufsz : Nat) (hbuf : 3 ≤ bufsz) (fuel : Nat)
    (body rest : List Char) (hb : ∀ c ∈ body, c ≠ '\n') :
    read_loop bufsz (fuel + 1) ('(' :: body ++ '\n' :: rest)
      = some (ReadResult.line (String.mk (('(' :: body ++ ['\n']).take (bufsz - 2)))
          (('(' :: body ++ ['\n']).drop (bufsz - 2) ++ rest)) := by
  have hk : bufsz - 1 = (bufsz - 2) + 1 := by omega
  have hb2 : ∀ c ∈ '(' :: body, c ≠ '\n' := by
    intro c hc
    rcases List.mem_cons.mp hc with h | h
    · rw [h]; decide
    · exact hb c h
  have hf := fgets_line (bufsz - 2) ('(' :: body) rest hb2
  have hhead : (('(' :: body ++ ['\n']).take (bufsz - 2)).head? = some '(' := by
    have : bufsz - 2 = (bufsz - 3) + 1 := by omega
    rw [this]
    rfl
  simp only [read_loop, hk]
  rw [hf]
  simp only []
  rw [if_pos hhead]

theorem read_loop_long_comment (bufsz : Nat) (hbuf : 3 ≤ bufsz) (fuel : Nat)
    (body rest : List Char) (hfirst : body.head? ≠ some '(') (hb : ∀ c ∈ body, c ≠ '\n')
    (hlen : bufsz - 2 ≤ body.length + 1) :
    read_loop bufsz (fuel + 1) (body ++ '\n' :: rest) = some ReadResult.too_long := by
  have hk : bufsz - 1 = (bufsz - 2) + 1 := by omega
  have hf := fgets_line (bufsz - 2) body rest hb
  have hhead : ((body ++ ['\n']).take (bufsz - 2)).head? ≠ some '(' := by
    have : bufsz - 2 = (bufsz - 3) + 1 := by omega
    rw [this]
    cases body with
    | nil => simp
    | cons c body => simpa using hfirst
  simp only [read_loop, hk]
  rw [hf]
  simp only []
  rw [if_neg hhead, if_pos (by simp; omega)]

theorem read_loop_short_comment (bufsz : Nat) (hbuf : 3 ≤ bufsz) (fuel : Nat)
    (body rest : List Char) (hfirst : body.head? ≠ some '(') (hb : ∀ c ∈ body, c ≠ '\n')
    (hlen : body.length + 1 < bufsz - 2) :
    read_loop bufsz (fuel + 1) (body ++ '\n' :: rest) = read_loop bufsz fuel rest := by
  have hk : bufsz - 1 = (bufsz - 2) + 1 := by omega
  have hf := fgets_line (bufsz - 2) body rest hb
  have hhead : ((body ++ ['\n']).take (bufsz - 2)).head? ≠ some '(' := by
    have : bufsz - 2 = (bufsz - 3) + 1 := by omega
    rw [this]
    cases body with
    | nil => simp
    | cons c body => simpa using hfirst
  simp only [read_loop, hk]
  rw [hf]
  simp only []
  rw [if_neg hhead, if_neg (by simp; omega),
    List.drop_of_length_le (by simp; omega)]
  simp

theorem read_loop_comments (bufsz : Nat) (hbuf : 3 ≤ bufsz) (tail : List Char)
    (comments : List (List Char))
    (hcom : ∀ c ∈ comments, c.head? ≠ some '(' ∧ (∀ x ∈ c, x ≠ '\n') ∧ c.length + 1 < bufsz - 2) :
    ∀ fuel : Nat, read_loop bufsz (comments.length + fuel)
        ((comments.map (fun c => c ++ ['\n'])).flatten ++ tail)
      = read_loop bufsz fuel tail := by
  induction comments with
  | nil => intro fuel; simp
  | cons c cs ih =>
    intro fuel
    obtain ⟨h1, h2, h3⟩ := hcom c (List.mem_cons_self _ _)
    have hfuel : (c :: cs).length + fuel = (cs.length + fuel) + 1 := by simp; omega
    have hstream : ((c :: cs).map (fun c => c ++ ['\n'])).flatten ++ tail
        = c ++ '\n' :: ((cs.map (fun c => c ++ ['\n'])).flatten ++ tail) := by
      simp
    rw [hfuel, hstream, read_loop_short_comment bufsz hbuf _ c _ h1 h2 h3]
    exact ih (fun x hx => hcom x (List.mem_cons_of_mem _ hx)) fuel

theorem read_loop_fuel (bufsz : Nat) (hb : 3 ≤ bufsz) (stream : List Char) (fuel : Nat)
    (h : stream.length < fuel) :
    read_loop bufsz fuel stream = read_frame_line bufsz stream := by
  have key : ∀ (f1 : Nat) (s : List Char) (f2 : Nat), s.length < f1 → s.length < f2 →
      read_loop bufsz f1 s = read_loop bufsz f2 s := by
    intro f1
    induction f1 with
    | zero => intro s f2 h1 _; omega
    | succ f1 ih =>
      intro s f2 h1 h2
      cases f2 with
      | zero => omega
      | succ f2 =>
        cases s with
        | nil => rfl
        | cons c s =>
          have hk : bufsz - 1 - 1 = (bufsz - 3) + 1 := by omega
          have hp := fgets_chars_progress (bufsz - 3) c s
          simp only [read_loop, fgets, hk]
          split_ifs
          · rfl
          · rfl
          · apply ih
            · simp only [List.length_cons] at hp h1; omega
            · simp only [List.length_cons] at hp h2; omega
  exact key fuel stream (stream.length + 1) h (by omega)

/-- C10 (amended): the length check guards the lines the read loop skips.  After any
number of short comment lines, a comment line (not beginning with `(`) of at least
`BUFSZ - 2` characters, terminator included, so every comment line that exceeds `BUFSZ`,
ends the read with the fatal line-too-long error.  A line beginning with `(` is not
checked: its first `BUFSZ - 2` characters become the event buffer and what follows them
stays in the stream as further input. -/
theorem long_comment_line_fatal (CL_CFSZ : Nat) :
    (∀ (comments : List (List Char)) (body rest : List Char),
      (∀ c ∈ comments, c.head? ≠ some '(' ∧ (∀ x ∈ c, x ≠ '\n') ∧
        c.length + 1 < BUFSZ CL_CFSZ - 2) →
      body.head? ≠ some '(' → (∀ x ∈ body, x ≠ '\n') →
      BUFSZ CL_CFSZ - 2 ≤ body.length + 1 →
      read_frame_line (BUFSZ CL_CFSZ)
          ((comments.map (fun c => c ++ ['\n'])).flatten ++ (body ++ '\n' :: rest))
        = some ReadResult.too_long) ∧
    (∀ (body rest : List Char), (∀ x ∈ body, x ≠ '\n') →
      read_frame_line (BUFSZ CL_CFSZ) ('(' :: body ++ '\n' :: rest)
        = some (ReadResult.line
            (String.mk (('(' :: body ++ ['\n']).take (BUFSZ CL_CFSZ - 2)))
            (('(' :: body ++ ['\n']).drop (BUFSZ CL_CFSZ - 2) ++ rest))) := by
  have hbuf : 3 ≤ BUFSZ CL_CFSZ := by unfold BUFSZ; omega
  constructor
  · intro comments body rest hcom hfirst hnl hlen
    rw [← read_loop_fuel (BUFSZ CL_CFSZ) hbuf _
      (comments.length +
        (((comments.map (fun c => c ++ ['\n'])).flatten ++ (body ++ '\n' :: rest)).length + 1))
      (by omega)]
    rw [read_loop_comments (BUFSZ CL_CFSZ) hbuf (body ++ '\n' :: rest) comments hcom]
    exact read_loop_long_comment (BUFSZ CL_CFSZ) hbuf _ body rest hfirst hnl hlen
  · intro body rest hnl
    exact read_loop_event_line (BUFSZ CL_CFSZ) hbuf _ body rest hnl

/-- C10 on a comment line of 600 characters after a short comment line, and on a short
event line, with `CL_CFSZ = 280` (`BUFSZ = 520`). -/
theorem long_comment_line_fatal_witness :
    read_frame_line (BUFSZ 280)
        (([['#']].map (fun c => c ++ ['\n'])).flatten ++
          (List.replicate 599 '#' ++ '\n' :: "(1.000000) can0 123#11\n".data))
      = some ReadResult.too_long ∧
    read_frame_line (BUFSZ 280) ('(' :: "1.000000) can0 123#11".data ++ '\n' :: ['#', '\n'])
      = some (ReadResult.line
          (String.mk (('(' :: "1.000000) can0 123#11".data ++ ['\n']).take (BUFSZ 280 - 2)))
          (('(' :: "1.000000) can0 123#11".data ++ ['\n']).drop (BUFSZ 280 - 2) ++ ['#', '\n'])) :=
  ⟨(long_comment_line_fatal 280).1 [['#']] (List.replicate 599 '#')
      "(1.000000) can0 123#11\n".data (by decide) (by decide) (by decide) (by decide),
    (long_comment_line_fatal 280).2 "1.000000) can0 123#11".data ['#', '\n'] (by decide)⟩

/-- C10 as stated fails for an event line: with `CL_CFSZ = 280` (`BUFSZ = 520`) the line
of 621 characters that begins with `(` raises no error; its first 518 characters are
returned as an event line and the other 103 are read next, as a line that is skipped.
For every value of `CL_CFSZ`, the line of `BUFSZ + 2` characters that begins with `(`
does not end the read with the line-too-long error. -/
theorem long_event_line_counterexample :
    (long_event_line.length = 621 ∧ BUFSZ 280 = 520 ∧
      read_frame_line (BUFSZ 280) long_event_line
        = some (ReadResult.line (String.mk (long_event_line.take 518))
            (long_event_line.drop 518)) ∧
      (long_event_line.drop 518).length = 103 ∧
      read_frame_line (BUFSZ 280) (long_event_line.drop 518) = some ReadResult.eof) ∧
    ∀ CL_CFSZ : Nat,
      read_frame_line (BUFSZ CL_CFSZ) ('(' :: List.replicate (BUFSZ CL_CFSZ) '1' ++ '\n' :: [])
        ≠ some ReadResult.too_long := by
  refine ⟨by decide, ?_⟩
  intro CL_CFSZ
  have hbuf : 3 ≤ BUFSZ CL_CFSZ := by unfold BUFSZ; omega
  have hnl : ∀ x ∈ List.replicate (BUFSZ CL_CFSZ) '1', x ≠ '\n' := by
    intro x hx
    rw [List.eq_of_mem_replicate hx]
    decide
  have h := read_loop_event_line (BUFSZ CL_CFSZ) hbuf
    ('(' :: List.replicate (BUFSZ CL_CFSZ) '1' ++ '\n' :: []).length
    (List.replicate (BUFSZ CL_CFSZ) '1') [] hnl
  unfold read_frame_line
  rw [h]
  simp

/-! ## Theorems: one event from the stream to the dispatcher -/

end Canplayer
